import Mathlib

/-!
Verification of the Quill compiler front end and optimizer.

This file gives a shallow embedding, in Lean, of the parts of the Quill
compiler (a C++/LLVM project) that the verified properties talk about:

* the type model (`src/types/type_system.cpp`, `type_system.h`):
  the `Type` class hierarchy with its virtual `equals` / `isAssignableFrom`
  methods, `TypeFactory::promoteNumericTypes` / `unifyTypes`,
  `TypeEnvironment`, and the generic-constraint solver `TypeConstraints::solve`;
* the type checker (`src/types/type_checker.cpp`): `InferenceContext`,
  `checkAssignment`, `checkIf`, and expression-type inference;
* the optimizer (`src/optimization/optimization_manager.cpp`,
  `type_directed_pass_impl.cpp`): the function-inlining pass, the
  type-directed pass (numeric strength reduction and cast elimination),
  and the statistics bookkeeping of `runOptimizations`.

Modelling conventions: C++ `double` values are modelled as rationals (exact
at every concrete input used below), machine integers as `Int`/`Nat` with
explicit wrapping where overflow matters, `std::map` / `std::set` as
association lists with first-match lookup, and null pointers as `Option`.
C++ `clone()` performs a deep copy; on Lean values this is the identity.
-/

namespace Quill

/-- TypeKind enumeration from `type_system.h`. -/
inductive TypeKind where
  | INT | FLOAT | BOOL | STRING | VOID
  | FUNCTION | LIST | TUPLE
  | GENERIC | UNION | DISCRIMINATED_UNION | INTERFACE
  | UNKNOWN | ERROR_TYPE
deriving DecidableEq, Repr

/-- The `Type` class hierarchy from `type_system.h`, as a closed sum.
`func` is `FunctionType` (parameter types, return type), `dunion` is
`DiscriminatedUnionType` (tagged variants; its inherited `types` vector is
exactly the variant payload types, in order), `iface` is `InterfaceType`
(interface name and named method signatures), `generic` is `GenericType`
(parameter name, constraint list), `error` is `ErrorType` (carries a
diagnostic message). -/
inductive Ty where
  | int
  | float
  | bool
  | str
  | void
  | func (paramTypes : List Ty) (returnType : Ty)
  | list (elementType : Ty)
  | tuple (elementTypes : List Ty)
  | union (types : List Ty)
  | generic (parameterName : String) (constraints : List Ty)
  | dunion (variants : List (String × Ty))
  | iface (interfaceName : String) (methods : List (String × Ty))
  | unknown
  | error (errorMessage : String)
deriving Repr

/-- The `kind` field each constructor sets (`type_system.h`). -/
def Ty.kind : Ty → TypeKind
  | .int => .INT
  | .float => .FLOAT
  | .bool => .BOOL
  | .str => .STRING
  | .void => .VOID
  | .func _ _ => .FUNCTION
  | .list _ => .LIST
  | .tuple _ => .TUPLE
  | .union _ => .UNION
  | .generic _ _ => .GENERIC
  | .dunion _ => .DISCRIMINATED_UNION
  | .iface _ _ => .INTERFACE
  | .unknown => .UNKNOWN
  | .error _ => .ERROR_TYPE

/-- The `name` field each constructor sets. `GenericType` uses its parameter
name, `InterfaceType` its interface name, and `ErrorType` always the string
`"error"` (the diagnostic message is a separate field). -/
def Ty.tyName : Ty → String
  | .int => "int"
  | .float => "float"
  | .bool => "bool"
  | .str => "str"
  | .void => "void"
  | .func _ _ => "function"
  | .list _ => "list"
  | .tuple _ => "tuple"
  | .union _ => "union"
  | .generic n _ => n
  | .dunion _ => "discriminated_union"
  | .iface n _ => n
  | .unknown => "unknown"
  | .error _ => "error"

/-- Predicate `Type::isNumeric` (`type_system.cpp`). -/
def Ty.isNumeric (t : Ty) : Bool := t.kind == .INT || t.kind == .FLOAT

/-- Predicate `Type::isInteger`. -/
def Ty.isInteger (t : Ty) : Bool := t.kind == .INT

/-- Predicate `Type::isFloat`. -/
def Ty.isFloat (t : Ty) : Bool := t.kind == .FLOAT

/-- Predicate `Type::isBool`. -/
def Ty.isBool (t : Ty) : Bool := t.kind == .BOOL

/-- Predicate `Type::isString`. -/
def Ty.isString (t : Ty) : Bool := t.kind == .STRING

/-- Predicate `Type::isVoid`. -/
def Ty.isVoid (t : Ty) : Bool := t.kind == .VOID

/-- Predicate `Type::isFunction`. -/
def Ty.isFunction (t : Ty) : Bool := t.kind == .FUNCTION

/-- Predicate `Type::isUnknown`. -/
def Ty.isUnknown (t : Ty) : Bool := t.kind == .UNKNOWN

/-- Predicate `Type::isError`. -/
def Ty.isError (t : Ty) : Bool := t.kind == .ERROR_TYPE

mutual

/-- Virtual `Type::equals` dispatched on the dynamic type of `this`
(`type_system.cpp`).  The base implementation compares `kind` and `name`;
it is inherited by the primitive types, `GenericType` (so constraints are
ignored), `UnknownType` and `ErrorType` (so the message is ignored).
`FunctionType`, `ListType`, `TupleType`, `UnionType`,
`DiscriminatedUnionType` and `InterfaceType` override it structurally.
Null arguments are handled by `Ty.equalsOpt` below; all internal recursive
calls receive non-null operands in the C++ code. -/
def Ty.equals : Ty → Ty → Bool
  | .int, o => o.kind == .INT
  | .float, o => o.kind == .FLOAT
  | .bool, o => o.kind == .BOOL
  | .str, o => o.kind == .STRING
  | .void, o => o.kind == .VOID
  | .generic n _, o => o.kind == .GENERIC && o.tyName == n
  | .unknown, o => o.kind == .UNKNOWN
  | .error _, o => o.kind == .ERROR_TYPE
  | .func ps r, o =>
      match o with
      | .func qs s => Ty.equalsList ps qs && r.equals s
      | _ => false
  | .list e, o =>
      match o with
      | .list f => e.equals f
      | _ => false
  | .tuple es, o =>
      match o with
      | .tuple fs => Ty.equalsList es fs
      | _ => false
  | .union ts, o =>
      match o with
      | .union us => ts.length == us.length && Ty.allHaveMatch ts us
      | _ => false
  | .dunion vs, o =>
      match o with
      | .dunion ws => vs.length == ws.length && Ty.allTagsMatch vs ws
      | _ => false
  | .iface n ms, o =>
      match o with
      | .iface n2 ns =>
          n == n2 && ms.length == ns.length && Ty.allNamesMatch ms ns
      | _ => false
termination_by a b => sizeOf a + sizeOf b
decreasing_by all_goals (simp_wf <;> omega)

/-- Pairwise equality of type lists; the C++ code first compares sizes and
then compares element-wise, which is what this single recursion computes. -/
def Ty.equalsList : List Ty → List Ty → Bool
  | [], [] => true
  | t :: ts, u :: us => t.equals u && Ty.equalsList ts us
  | _, _ => false
termination_by a b => sizeOf a + sizeOf b
decreasing_by all_goals (simp_wf <;> omega)

/-- Inner loop of `UnionType::equals`: does `t` equal some member of the
other union? -/
def Ty.hasMatchIn : Ty → List Ty → Bool
  | _, [] => false
  | t, u :: us => t.equals u || Ty.hasMatchIn t us
termination_by t us => sizeOf t + sizeOf us
decreasing_by all_goals (simp_wf <;> omega)

/-- Outer loop of `UnionType::equals`: every member of the first list must
have a structurally equal member in the second (order-insensitive). -/
def Ty.allHaveMatch : List Ty → List Ty → Bool
  | [], _ => true
  | t :: ts, us => Ty.hasMatchIn t us && Ty.allHaveMatch ts us
termination_by ts us => sizeOf ts + sizeOf us
decreasing_by all_goals (simp_wf <;> omega)

/-- `DiscriminatedUnionType::getVariantType(tag)` followed by the equality
check in `DiscriminatedUnionType::equals`: find the FIRST variant of `ws`
with the given tag and compare payloads; a missing tag fails. The same
first-match-then-compare shape implements
`InterfaceType::getMethod`/`hasMethod` followed by signature equality. -/
def Ty.firstMatchEquals : Ty → String → List (String × Ty) → Bool
  | _, _, [] => false
  | dt, tag, (tag2, dt2) :: ws =>
      if tag2 == tag then dt.equals dt2 else Ty.firstMatchEquals dt tag ws
termination_by dt _ ws => sizeOf dt + sizeOf ws
decreasing_by all_goals (simp_wf <;> omega)

/-- Loop of `DiscriminatedUnionType::equals` over this union's variants. -/
def Ty.allTagsMatch : List (String × Ty) → List (String × Ty) → Bool
  | [], _ => true
  | (tag, dt) :: vs, ws => Ty.firstMatchEquals dt tag ws && Ty.allTagsMatch vs ws
termination_by vs ws => sizeOf vs + sizeOf ws
decreasing_by all_goals (simp_wf <;> omega)

/-- Loop of `InterfaceType::equals` over this interface's methods. -/
def Ty.allNamesMatch : List (String × Ty) → List (String × Ty) → Bool
  | [], _ => true
  | (nm, sig) :: ms, ns => Ty.firstMatchEquals sig nm ns && Ty.allNamesMatch ms ns
termination_by ms ns => sizeOf ms + sizeOf ns
decreasing_by all_goals (simp_wf <;> omega)

end

/-- Null-tolerant entry point of `equals`: every override (and the base
implementation `other && ...`) returns `false` on a null argument. -/
def Ty.equalsOpt (t : Ty) : Option Ty → Bool
  | none => false
  | some o => t.equals o

/-- Loop of `InterfaceType::isAssignableFrom` over the required methods:
the candidate must expose each method name with a structurally equal
(`equals`, not assignable) signature. -/
def Ty.ifaceMethodsOk : List (String × Ty) → List (String × Ty) → Bool
  | [], _ => true
  | (nm, sig) :: ms, ns => Ty.firstMatchEquals sig nm ns && Ty.ifaceMethodsOk ms ns

mutual

/-- Virtual `Type::isAssignableFrom` on non-null arguments.  Base
implementation: `equals(other)` — inherited by Int, Bool, String, Void,
Function, List, Tuple, Generic and Error.  `FloatType` accepts Float or
Int; `UnknownType` accepts everything; `UnionType` (and, by inheritance,
`DiscriminatedUnionType`, whose `types` vector holds the variant payload
types) accepts anything one member accepts; `InterfaceType` checks
structural method containment. -/
def Ty.assignable : Ty → Ty → Bool
  | .float, o => o.kind == .FLOAT || o.kind == .INT
  | .unknown, _ => true
  | .union ts, o => Ty.anyMemberAssignable ts o
  | .dunion vs, o => Ty.anyVariantAssignable vs o
  | .iface _ ms, o =>
      match o with
      | .iface _ ns => Ty.ifaceMethodsOk ms ns
      | _ => false
  | t, o => t.equals o

/-- Loop of `UnionType::isAssignableFrom` over the member types. -/
def Ty.anyMemberAssignable : List Ty → Ty → Bool
  | [], _ => false
  | t :: ts, o => t.assignable o || Ty.anyMemberAssignable ts o

/-- The same loop as seen by a `DiscriminatedUnionType`, whose inherited
`types` vector holds the variant payload types in variant order. -/
def Ty.anyVariantAssignable : List (String × Ty) → Ty → Bool
  | [], _ => false
  | (_, dt) :: vs, o => dt.assignable o || Ty.anyVariantAssignable vs o

end

/-- Null-tolerant entry point of `isAssignableFrom`.  Every override checks
its argument for null and returns `false` — except `UnknownType`, whose
body is the unconditional `return true`, so it accepts even a null
argument. -/
def Ty.isAssignableFromOpt (t : Ty) : Option Ty → Bool
  | none =>
      match t with
      | .unknown => true
      | _ => false
  | some o => t.assignable o

mutual

/-- Virtual `Type::toString`.  Base implementation returns `name`;
composite types override it with the formats in `type_system.cpp`. -/
def Ty.toStr : Ty → String
  | .func ps r => "(" ++ Ty.commaSep ps ++ ") -> " ++ r.toStr
  | .list e => "list[" ++ e.toStr ++ "]"
  | .tuple es => "tuple[" ++ Ty.commaSep es ++ "]"
  | .union ts => Ty.barSep ts
  | .dunion vs => Ty.variantSep vs
  | .iface n ms => "interface " ++ n ++ " \x7b " ++ Ty.methodSep ms ++ " \x7d"
  | t => t.tyName

/-- Comma-separated element list, as printed by `FunctionType::toString`
and `TupleType::toString`. -/
def Ty.commaSep : List Ty → String
  | [] => ""
  | [t] => t.toStr
  | t :: ts => t.toStr ++ ", " ++ Ty.commaSep ts

/-- Bar-separated member list, as printed by `UnionType::toString`. -/
def Ty.barSep : List Ty → String
  | [] => ""
  | [t] => t.toStr
  | t :: ts => t.toStr ++ " | " ++ Ty.barSep ts

/-- Variant list `tag(type) | ...`, as printed by
`DiscriminatedUnionType::toString`. -/
def Ty.variantSep : List (String × Ty) → String
  | [] => ""
  | [(tag, dt)] => tag ++ "(" ++ dt.toStr ++ ")"
  | (tag, dt) :: vs => tag ++ "(" ++ dt.toStr ++ ")" ++ " | " ++ Ty.variantSep vs

/-- Method list `name: signature; ...`, as printed by
`InterfaceType::toString`. -/
def Ty.methodSep : List (String × Ty) → String
  | [] => ""
  | [(nm, sig)] => nm ++ ": " ++ sig.toStr
  | (nm, sig) :: ms => nm ++ ": " ++ sig.toStr ++ "; " ++ Ty.methodSep ms

end

/-- `TypeFactory::promoteNumericTypes` (`type_system.cpp`): null operands
give an Error; float-with-numeric gives Float; two Ints give Int; anything
else an Error. -/
def promoteNumericTypes : Option Ty → Option Ty → Ty
  | some t1, some t2 =>
      if (t1.isFloat || t2.isFloat) && (t1.isNumeric && t2.isNumeric) then .float
      else if t1.isInteger && t2.isInteger then .int
      else .error "cannot promote non-numeric types"
  | _, _ => .error "null type in promotion"

/-- `TypeFactory::unifyTypes`: equal types unify to (a clone of) the first;
numeric pairs promote; Unknown unifies to the other side; otherwise Error. -/
def unifyTypes : Option Ty → Option Ty → Ty
  | some t1, some t2 =>
      if t1.equals t2 then t1
      else if t1.isNumeric && t2.isNumeric then promoteNumericTypes (some t1) (some t2)
      else if t1.isUnknown then t2
      else if t2.isUnknown then t1
      else .error ("cannot unify incompatible types: " ++ t1.toStr ++ " and " ++ t2.toStr)
  | _, _ => .error "null type in unification"

/-! ## Type environment (`TypeEnvironment`, `type_system.cpp`) -/

/-- One scope: a `std::map<std::string, std::unique_ptr<Type>>`, modelled as
an association list with unique keys (inserts replace). -/
abbrev Scope := List (String × Ty)

/-- Map insertion (`scopes.back()[name] = type`): replace an existing
binding for the key, or add one. -/
def scopeInsert (s : Scope) (name : String) (t : Ty) : Scope :=
  if s.any (fun p => p.1 == name) then
    s.map (fun p => if p.1 == name then (name, t) else p)
  else
    s ++ [(name, t)]

/-- Map lookup: first (unique) binding for the key. -/
def scopeLookup (s : Scope) (name : String) : Option Ty :=
  (s.find? (fun p => p.1 == name)).map (fun p => p.2)

/-- `TypeEnvironment`: a stack of scopes.  The C++ vector keeps the
innermost scope at the back and searches back-to-front; we store the
innermost scope FIRST, so lookup scans head to tail. -/
structure TypeEnvironment where
  scopes : List Scope

/-- `TypeEnvironment::TypeEnvironment()` pushes the permanent global scope. -/
def TypeEnvironment.init : TypeEnvironment := { scopes := [[]] }

/-- `pushScope`: a fresh innermost scope. -/
def TypeEnvironment.pushScope (env : TypeEnvironment) : TypeEnvironment :=
  { scopes := [] :: env.scopes }

/-- `popScope`: drops the innermost scope, but never the global one. -/
def TypeEnvironment.popScope (env : TypeEnvironment) : TypeEnvironment :=
  if env.scopes.length > 1 then { scopes := env.scopes.tail } else env

/-- `define`: inserts into the innermost scope (no-op on an impossible
empty stack, mirroring the `!scopes.empty()` guard). -/
def TypeEnvironment.define (env : TypeEnvironment) (name : String) (t : Ty) :
    TypeEnvironment :=
  match env.scopes with
  | [] => env
  | s :: rest => { scopes := scopeInsert s name t :: rest }

/-- Scope-stack scan of `TypeEnvironment::lookup`, innermost first. -/
def scopesLookup : List Scope → String → Option Ty
  | [], _ => none
  | s :: rest, name =>
      match scopeLookup s name with
      | some t => some t
      | none => scopesLookup rest name

/-- `lookup`: scans innermost to outermost, returns the first binding. -/
def TypeEnvironment.lookup (env : TypeEnvironment) (name : String) : Option Ty :=
  scopesLookup env.scopes name

/-- Argument-compatibility loop of `TypeEnvironment::lookupFunction`:
each declared parameter type must be `isAssignableFrom` the corresponding
argument type.  Argument entries are raw `Type*` pointers, hence `Option`. -/
def paramsAccept : List Ty → List (Option Ty) → Bool
  | [], [] => true
  | p :: ps, a :: args => p.isAssignableFromOpt a && paramsAccept ps args
  | _, _ => false

/-- `TypeEnvironment::lookupFunction(name, argTypes)`: looks the name up,
requires a function type, arity match and argument assignability; returns
the function type on success and null (`none`) on EVERY failure — whether
the name is unbound, bound to a non-function, or bound to a function whose
signature does not match. -/
def TypeEnvironment.lookupFunction (env : TypeEnvironment) (name : String)
    (argTypes : List (Option Ty)) : Option (List Ty × Ty) :=
  match env.lookup name with
  | some (Ty.func ps r) =>
      if ps.length == argTypes.length && paramsAccept ps argTypes then
        some (ps, r)
      else
        none
  | _ => none

/-! ## Inference context (`InferenceContext`, `type_checker.cpp`) -/

/-- Flow-sensitive inference context: `variable_types` is a
`std::map<std::string, std::unique_ptr<Type>>` and `modified_variables` a
`std::set<std::string>`.  `clone()` deep-copies; on Lean values it is the
identity. -/
structure InferenceContext where
  variableTypes : List (String × Ty)
  modifiedVariables : List String
deriving Repr

/-- The freshly constructed (empty) context. -/
def InferenceContext.empty : InferenceContext :=
  { variableTypes := [], modifiedVariables := [] }

/-- `InferenceContext::setVariableType`. -/
def InferenceContext.setVariableType (ctx : InferenceContext) (name : String)
    (t : Ty) : InferenceContext :=
  { ctx with variableTypes := scopeInsert ctx.variableTypes name t }

/-- `InferenceContext::getVariableType`. -/
def InferenceContext.getVariableType (ctx : InferenceContext) (name : String) :
    Option Ty :=
  scopeLookup ctx.variableTypes name

/-- `InferenceContext::markVariableModified` (set insertion). -/
def InferenceContext.markVariableModified (ctx : InferenceContext)
    (name : String) : InferenceContext :=
  if ctx.modifiedVariables.contains name then ctx
  else { ctx with modifiedVariables := ctx.modifiedVariables ++ [name] }

/-- `InferenceContext::merge(other)`: unions the modified-variable sets and,
per variable of `other`, either copies the binding (when absent here) or
replaces it by the unified type — keeping the old binding when unification
fails with an Error (the silent-drop behaviour). -/
def InferenceContext.merge (self other : InferenceContext) : InferenceContext :=
  let modified := other.modifiedVariables.foldl
    (fun acc v => if acc.contains v then acc else acc ++ [v])
    self.modifiedVariables
  let vts := other.variableTypes.foldl
    (fun acc p =>
      match scopeLookup acc p.1 with
      | none => scopeInsert acc p.1 p.2
      | some thisTy =>
          let common := unifyTypes (some thisTy) (some p.2)
          if common.isError then acc else scopeInsert acc p.1 common)
    self.variableTypes
  { variableTypes := vts, modifiedVariables := modified }

/-! ## AST (`ast.h`) and type checker (`type_checker.cpp`) -/

/-- Expression AST: `NumberExprAST` (a C++ `double`, modelled as `ℚ`),
`StringExprAST`, `VariableExprAST`, `BinaryExprAST`, `UnaryExprAST`,
`CallExprAST`. -/
inductive Expr where
  | num (value : ℚ)
  | strE (value : String)
  | varE (name : String)
  | bin (op : Char) (lhs rhs : Expr)
  | unary (op : Char) (operand : Expr)
  | call (callee : String) (args : List Expr)

/-- Statement AST: assignment, return, if, while, print, block, bare
expression.  Null AST pointers do not arise in the Lean value space; the
C++ null-node guards are therefore not modelled. -/
inductive Stmt where
  | assign (name : String) (value : Expr)
  | ret (value : Option Expr)
  | ifS (condition : Expr) (thenStmt : Stmt) (elseStmt : Option Stmt)
  | whileS (condition : Expr) (body : Stmt)
  | print (expression : Expr)
  | block (statements : List Stmt)
  | exprStmt (expression : Expr)

/-- `TypeCheckResult`: an optional result type plus collected errors and
warnings. -/
structure TypeCheckResult where
  type : Option Ty := none
  errors : List String := []
  warnings : List String := []
deriving Repr

/-- `TypeCheckResult::hasErrors`. -/
def TypeCheckResult.hasErrors (r : TypeCheckResult) : Bool := !r.errors.isEmpty

/-- Checker state: the scoped `type_env` plus the nullable flow-sensitive
`current_context` (a `unique_ptr`, null outside `beginInference` /
`endInference`). -/
structure CheckerState where
  typeEnv : TypeEnvironment
  currentContext : Option InferenceContext

/-- `TypeErrorReporter::formatTypeError`. -/
def formatTypeError (context : String) (expected actual : Option Ty) : String :=
  "Type error in " ++ context ++ ": expected " ++
    (match expected with | some t => t.toStr | none => "unknown") ++
    ", got " ++
    (match actual with | some t => t.toStr | none => "unknown")

/-- `TypeErrorReporter::formatUndefinedVariable`. -/
def formatUndefinedVariable (name : String) : String :=
  "Undefined variable: " ++ name

/-- `TypeErrorReporter::formatUndefinedFunction` — the single message used
by `inferCallType` whenever `lookupFunction` returns null. -/
def formatUndefinedFunction (name : String) : String :=
  "Undefined function: " ++ name

/-- `TypeChecker::lookupVariable`: the inference context takes precedence
over the lexical type environment. -/
def lookupVariable (st : CheckerState) (name : String) : Option Ty :=
  match st.currentContext with
  | some ctx =>
      match ctx.getVariableType name with
      | some t => some t
      | none => st.typeEnv.lookup name
  | none => st.typeEnv.lookup name

/-- `TypeChecker::isAssignable`: false on any null, else virtual
`isAssignableFrom`. -/
def isAssignable (target source : Option Ty) : Bool :=
  match target, source with
  | some t, some s => t.assignable s
  | _, _ => false

/-- `TypeChecker::isComparable`: equal types, two numerics, or two strings. -/
def isComparable (left right : Option Ty) : Bool :=
  match left, right with
  | some l, some r => l.equals r || (l.isNumeric && r.isNumeric) || (l.isString && r.isString)
  | _, _ => false

/-- Truncation toward zero, the effect of the C++ `static_cast<int>` on an
in-range `double`. -/
def ratTrunc (q : ℚ) : ℤ := q.num.tdiv q.den

/-- `TypeChecker::inferNumberType`: Int when the value survives the
round trip through `static_cast<int>` (`value == (int)value`), else
Float.  The cast truncates toward zero into a 32-bit `int`; when the
truncated value does not fit (|value| ≥ 2^31) the cast is undefined
behaviour in C++, and in practice the comparison fails — modelled here
as the Float branch. -/
def inferNumberType (value : ℚ) : TypeCheckResult :=
  if -(2 ^ 31) ≤ ratTrunc value ∧ ratTrunc value < 2 ^ 31 ∧
      value = ((ratTrunc value : ℤ) : ℚ) then
    { type := some Ty.int }
  else { type := some Ty.float }

/-- Helpers reading an optional result type the way the C++ dereferences
`cond_result.type`; a null there cannot be reached after a no-error infer. -/
def optIsBool : Option Ty → Bool
  | some t => t.isBool
  | none => false

/-- Numeric test on an optional result type. -/
def optIsNumeric : Option Ty → Bool
  | some t => t.isNumeric
  | none => false

/-- Printed form of an optional result type. -/
def optToStr : Option Ty → String
  | some t => t.toStr
  | none => "unknown"

mutual

/-- `TypeChecker::inferExpressionType` dispatch, together with the per-kind
functions `inferNumberType`, `inferStringType`, `inferVariableType`,
`inferBinaryType`, `inferUnaryType` and `inferCallType`
(`type_checker.cpp`).  Expression inference reads but never mutates the
checker state. -/
def inferExpressionType (st : CheckerState) : Expr → TypeCheckResult
  | .num v => inferNumberType v
  | .strE _ => { type := some Ty.str }
  | .varE name =>
      match lookupVariable st name with
      | none => { errors := [formatUndefinedVariable name] }
      | some t => { type := some t }
  | .bin op lhs rhs =>
      let leftRes := inferExpressionType st lhs
      if leftRes.hasErrors then leftRes
      else
        let rightRes := inferExpressionType st rhs
        if rightRes.hasErrors then rightRes
        else
          if op == '+' || op == '-' || op == '*' || op == '/' || op == '%' then
            if optIsNumeric leftRes.type && optIsNumeric rightRes.type then
              { type := some (promoteNumericTypes leftRes.type rightRes.type) }
            else
              { errors := ["Arithmetic operation requires numeric types, got: " ++
                  optToStr leftRes.type ++ " " ++ String.singleton op ++ " " ++
                  optToStr rightRes.type] }
          else if op == '<' || op == '>' || op == '=' || op == '!' then
            if isComparable leftRes.type rightRes.type then
              { type := some Ty.bool }
            else
              { errors := ["Cannot compare incompatible types: " ++
                  optToStr leftRes.type ++ " and " ++ optToStr rightRes.type] }
          else
            { errors := ["Unknown binary operator: " ++ String.singleton op] }
  | .unary op operand =>
      let operandRes := inferExpressionType st operand
      if operandRes.hasErrors then operandRes
      else
        if op == '-' then
          if optIsNumeric operandRes.type then { type := operandRes.type }
          else
            { errors := ["Unary minus requires numeric type, got: " ++
                optToStr operandRes.type] }
        else if op == '!' then { type := some Ty.bool }
        else { errors := ["Unknown unary operator: " ++ String.singleton op] }
  | .call callee args =>
      match inferArgTypes st args with
      | .inl errRes => errRes
      | .inr argTys =>
          match st.typeEnv.lookupFunction callee argTys with
          | none => { errors := [formatUndefinedFunction callee] }
          | some (_, ret) => { type := some ret }

/-- Argument loop of `inferCallType`: infer each argument, returning the
first erroneous result wholesale, else the collected (nullable) types. -/
def inferArgTypes (st : CheckerState) : List Expr → Sum TypeCheckResult (List (Option Ty))
  | [] => .inr []
  | a :: rest =>
      let r := inferExpressionType st a
      if r.hasErrors then .inl r
      else
        match inferArgTypes st rest with
        | .inl e => .inl e
        | .inr ts => .inr (r.type :: ts)

end

/-- `TypeChecker::checkAssignment`: infer the value; an already-declared
name requires assignability (error otherwise, leaving the state
unchanged); a new name is defined both in the innermost scope and in the
inference context; on success the name is marked modified. -/
def checkAssignment (st : CheckerState) (name : String) (value : Expr) :
    CheckerState × TypeCheckResult :=
  let exprRes := inferExpressionType st value
  if exprRes.hasErrors then (st, exprRes)
  else
    match lookupVariable st name with
    | some existing =>
        if !isAssignable (some existing) exprRes.type then
          (st, { errors := [formatTypeError
            ("assignment to variable '" ++ name ++ "'")
            (some existing) exprRes.type] })
        else
          ({ st with currentContext :=
              st.currentContext.map (·.markVariableModified name) },
           { type := some Ty.void })
    | none =>
        let st1 :=
          match exprRes.type with
          | some t =>
              { st with
                typeEnv := st.typeEnv.define name t,
                currentContext :=
                  st.currentContext.map (fun ctx =>
                    (ctx.setVariableType name t).markVariableModified name) }
          | none => st
        (st1, { type := some Ty.void })

mutual

/-- `TypeChecker::checkStatement` dispatch over the closed statement set. -/
def checkStatement (st : CheckerState) : Stmt → CheckerState × TypeCheckResult
  | .assign name value => checkAssignment st name value
  | .ret value =>
      (st, match value with
           | some v => inferExpressionType st v
           | none => { type := some Ty.void })
  | .ifS c t e => checkIf st c t e
  | .whileS c b => checkWhile st c b
  | .print e =>
      let r := inferExpressionType st e
      (st, if r.hasErrors then r else { type := some Ty.void })
  | .block stmts => checkBlock st stmts
  | .exprStmt e => (st, inferExpressionType st e)
termination_by s => 2 * sizeOf s
decreasing_by all_goals simp_wf <;> omega

/-- `TypeChecker::checkIf`, embedded exactly as written: the condition must
be Bool or numeric; `then_context` is cloned from `current_context` BEFORE
the then branch and `else_context` AFTER it, but both branches are checked
by `checkStatement` against the live `current_context` itself (the clones
are never installed); afterwards `current_context` is replaced by
`then_context` (merged with `else_context` when an else branch exists).
Cloning a null context would fault in C++ and is totalised here to the
empty context; it is unreachable from `checkProgram`. -/
def checkIf (st : CheckerState) (c : Expr) (thenS : Stmt) (elseS : Option Stmt) :
    CheckerState × TypeCheckResult :=
  let condRes := inferExpressionType st c
  if condRes.hasErrors then (st, condRes)
  else if !(optIsBool condRes.type || optIsNumeric condRes.type) then
    (st, { errors := ["If condition must be boolean or numeric, got: " ++
        optToStr condRes.type] })
  else
    let thenContext := st.currentContext.getD InferenceContext.empty
    let checkedThen := checkStatement st thenS
    let st1 := checkedThen.1
    let thenRes := checkedThen.2
    match elseS with
    | some es =>
        let elseContext := st1.currentContext.getD InferenceContext.empty
        let checkedElse := checkStatement st1 es
        let st2 := checkedElse.1
        let elseRes := checkedElse.2
        let merged := thenContext.merge elseContext
        ({ st2 with currentContext := some merged },
         { type := some Ty.void, errors := elseRes.errors ++ thenRes.errors })
    | none =>
        ({ st1 with currentContext := some thenContext },
         { type := some Ty.void, errors := thenRes.errors })
termination_by 2 * (sizeOf thenS + sizeOf elseS) + 1
decreasing_by all_goals simp_wf <;> omega

/-- `TypeChecker::checkWhile`: condition must be Bool or numeric; the body
is checked exactly once. -/
def checkWhile (st : CheckerState) (c : Expr) (body : Stmt) :
    CheckerState × TypeCheckResult :=
  let condRes := inferExpressionType st c
  if condRes.hasErrors then (st, condRes)
  else if !(optIsBool condRes.type || optIsNumeric condRes.type) then
    (st, { errors := ["While condition must be boolean or numeric, got: " ++
        optToStr condRes.type] })
  else
    let checkedBody := checkStatement st body
    (checkedBody.1, { type := some Ty.void, errors := checkedBody.2.errors })
termination_by 2 * sizeOf body + 1
decreasing_by all_goals simp_wf <;> omega

/-- `TypeChecker::checkBlock`: push a scope, fold the statements
(accumulating errors, tracking the last non-Void statement type), pop the
scope. -/
def checkBlock (st : CheckerState) (stmts : List Stmt) :
    CheckerState × TypeCheckResult :=
  let st1 := { st with typeEnv := st.typeEnv.pushScope }
  let folded := checkBlockLoop st1 stmts { type := some Ty.void }
  ({ folded.1 with typeEnv := folded.1.typeEnv.popScope }, folded.2)
termination_by 2 * sizeOf stmts + 1
decreasing_by all_goals simp_wf <;> omega

/-- Statement fold inside `checkBlock`. -/
def checkBlockLoop (st : CheckerState) :
    List Stmt → TypeCheckResult → CheckerState × TypeCheckResult
  | [], acc => (st, acc)
  | s :: rest, acc =>
      let checked := checkStatement st s
      let acc1 := { acc with errors := acc.errors ++ checked.2.errors }
      let acc2 :=
        match checked.2.type with
        | some t => if !t.isVoid then { acc1 with type := some t } else acc1
        | none => acc1
      checkBlockLoop checked.1 rest acc2
termination_by stmts _ => 2 * sizeOf stmts
decreasing_by all_goals simp_wf <;> omega

end

/-! ## Generic constraint solver (`TypeConstraints::solve`, `type_system.cpp`) -/

/-- Constraint kinds from `type_system.h`. -/
inductive ConstraintKind where
  | EQUALS | SUBTYPE | IMPLEMENTS | NUMERIC | COMPARABLE
deriving DecidableEq, Repr

/-- A constraint: kind, left type, optional right type (default `nullptr`). -/
structure Constraint where
  kind : ConstraintKind
  left : Ty
  right : Option Ty

/-- `GenericInstantiator::type_bindings`: a map from generic parameter
names to bound types. -/
abbrev Bindings := List (String × Ty)

/-- `GenericInstantiator::getBinding`. -/
def getBinding (b : Bindings) (name : String) : Option Ty := scopeLookup b name

/-- `GenericInstantiator::bindTypeVariable` (map insert). -/
def bindTypeVariable (b : Bindings) (name : String) (t : Ty) : Bindings :=
  scopeInsert b name t

/-- One constraint processed inside the solver loop: EQUALS with exactly
one generic side binds that parameter (when unbound) to the other side;
NUMERIC and COMPARABLE default an unbound generic left side to Int; other
kinds do nothing.  An EQUALS constraint with a null right side would fault
in C++ (`constraint.right->kind`) and is treated as a no-op here; the
checker never builds one. -/
def solveStep (b : Bindings) (c : Constraint) : Bindings :=
  match c.kind with
  | .EQUALS =>
      match c.left, c.right with
      | Ty.generic n _, some r =>
          if r.kind == .GENERIC then b
          else if (getBinding b n).isSome then b else bindTypeVariable b n r
      | l, some (Ty.generic n _) =>
          if (getBinding b n).isSome then b else bindTypeVariable b n l
      | _, _ => b
  | .NUMERIC =>
      match c.left with
      | Ty.generic n _ =>
          if (getBinding b n).isSome then b else bindTypeVariable b n Ty.int
      | _ => b
  | .COMPARABLE =>
      match c.left with
      | Ty.generic n _ =>
          if (getBinding b n).isSome then b else bindTypeVariable b n Ty.int
      | _ => b
  | _ => b

/-- One full sweep of the `for (const auto& constraint : constraints)` loop. -/
def solveSweep (cs : List Constraint) (b : Bindings) : Bindings :=
  cs.foldl solveStep b

/-- The generic parameter names that occur as a (top-level) side of a
constraint — the only names the solver can ever bind. -/
def constraintGenericNames (c : Constraint) : List String :=
  (match c.left with | Ty.generic n _ => [n] | _ => []) ++
  (match c.right with | some (Ty.generic n _) => [n] | _ => [])

/-- All bindable generic parameter names of a constraint list. -/
def genericNames (cs : List Constraint) : List String :=
  cs.flatMap constraintGenericNames

/-- The `while (changed)` loop of `TypeConstraints::solve`, with explicit
fuel: `changed` is observed through growth of the binding map (every bind
inserts a fresh key).  The termination theorem below shows that fuel
`(genericNames cs).dedup.length + 1` always reaches the loop's fixed
point, which is exactly the C++ termination argument. -/
def solveLoop (cs : List Constraint) : ℕ → Bindings → Bindings
  | 0, b => b
  | fuel + 1, b =>
      let b2 := solveSweep cs b
      if b2.length = b.length then b else solveLoop cs fuel b2

/-- `TypeConstraints::solve`, run to completion (the C++ function also
returns `true` unconditionally). -/
def solveConstraints (cs : List Constraint) (b : Bindings) : Bindings :=
  solveLoop cs ((genericNames cs).dedup.length + 1) b

/-! ## Function inlining pass (`QuillFunctionInliningPass`,
`optimization_manager.cpp`) -/

/-- IR instructions as the inlining pass observes them: a call (with the
callee of `getCalledFunction()`, null for indirect calls), a branch, a
memory operation (load/store), or anything else. -/
inductive LInstr where
  | call (callee : Option String)
  | branch
  | mem
  | simple
deriving DecidableEq, Repr

/-- An LLVM function as the pass observes it: name, declaration flag, and
basic blocks of instructions. -/
structure LFunc where
  name : String
  isDeclaration : Bool
  blocks : List (List LInstr)
deriving DecidableEq, Repr

/-- A module: a list of functions (LLVM enforces unique names). -/
abbrev LModule := List LFunc

/-- Resolve a function by name. -/
def findFunction (M : LModule) (name : String) : Option LFunc :=
  M.find? (fun f => f.name == name)

/-- Weight per instruction in
`QuillFunctionInliningPass::calculateInstructionCount`: every instruction
counts 1, plus 5 for calls, 1 for branches, 2 for loads/stores. -/
def instrWeight : LInstr → ℕ
  | .call _ => 6
  | .branch => 2
  | .mem => 3
  | .simple => 1

/-- `calculateInstructionCount`: weighted sum over all blocks. -/
def calculateInstructionCount (f : LFunc) : ℕ :=
  (f.blocks.map (fun bb => (bb.map instrWeight).sum)).sum

/-- `INLINE_THRESHOLD = 20` (`optimization_passes.h`). -/
def INLINE_THRESHOLD : ℕ := 20

/-- `shouldInlineFunction`: defined, not `main`, at most 3 basic blocks,
weighted instruction count within the threshold. -/
def shouldInlineFunction (f : LFunc) : Bool :=
  !f.isDeclaration && f.name != "main" && f.blocks.length ≤ 3 &&
    calculateInstructionCount f ≤ INLINE_THRESHOLD

/-- Collection phase of `inlineSmallFunctions`: every direct call in a
non-declaration caller whose resolved callee passes `shouldInlineFunction`
(evaluated against the original module — no inlining has happened yet),
as (caller name, callee name) pairs in program order. -/
def callsToInline (M : LModule) : List (String × String) :=
  M.flatMap (fun caller =>
    if caller.isDeclaration then []
    else
      caller.blocks.flatMap (fun bb =>
        bb.filterMap (fun i =>
          match i with
          | LInstr.call (some f) =>
              match findFunction M f with
              | some callee =>
                  if shouldInlineFunction callee then some (caller.name, f)
                  else none
              | none => none
          | _ => none)))

/-- The direct (known-callee) calls appearing in a function's body — the
data the pass's recursion scan (`innerCall->getCalledFunction() == callee`)
reads. -/
def funcCallees (f : LFunc) : List String :=
  f.blocks.flatMap (fun bb =>
    bb.filterMap (fun i => match i with | LInstr.call c => c | _ => none))

/-- Per-function view of the module maintained while inlining mutates it:
each function name mapped to the callees of its direct calls. -/
abbrev CallMap := List (String × List String)

/-- Call-map lookup (an absent function has no calls). -/
def callMapLookup (cm : CallMap) (name : String) : List String :=
  ((cm.find? (fun p => p.1 == name)).map (fun p => p.2)).getD []

/-- Call-map update. -/
def callMapUpdate (cm : CallMap) (name : String) (callees : List String) :
    CallMap :=
  if cm.any (fun p => p.1 == name) then
    cm.map (fun p => if p.1 == name then (name, callees) else p)
  else
    cm ++ [(name, callees)]

/-- The call map of the original module. -/
def callMapOf (M : LModule) : CallMap :=
  M.map (fun f => (f.name, funcCallees f))

/-- Inlining phase of `inlineSmallFunctions` over the collected call
sites: skip when caller and callee coincide; skip when the callee's
CURRENT body contains a direct call to itself (the `isRecursive` scan);
otherwise inline.  `llvm::InlineFunction` splices a copy of the callee's
body over the call site; at the granularity the pass itself observes —
the direct calls contained in each function — this replaces the inlined
call by the callee's current calls, and is assumed to succeed.  Returns
the final call map and the list of call sites actually inlined. -/
def inlineLoop : List (String × String) → CallMap → CallMap × List (String × String)
  | [], cm => (cm, [])
  | (caller, callee) :: rest, cm =>
      if caller == callee then inlineLoop rest cm
      else if (callMapLookup cm callee).contains callee then inlineLoop rest cm
      else
        let cm2 := callMapUpdate cm caller
          ((callMapLookup cm caller).erase callee ++ callMapLookup cm callee)
        let done := inlineLoop rest cm2
        (done.1, (caller, callee) :: done.2)

/-- The call sites `inlineSmallFunctions` inlines, in order. -/
def inlinedCalls (M : LModule) : List (String × String) :=
  (inlineLoop (callsToInline M) (callMapOf M)).2

/-! ## IR fragment and the type-directed pass
(`QuillTypeDirectedOptimizationPass`, `type_directed_pass_impl.cpp`) -/

/-- The LLVM types involved in the pass's rewrites. -/
inductive IRTy where
  | i32 | i64 | f64
deriving DecidableEq, Repr

/-- Integer bit width (0 for the float type). -/
def intBits : IRTy → ℕ
  | .i32 => 32
  | .i64 => 64
  | .f64 => 0

/-- Total bit width. -/
def bitWidth : IRTy → ℕ
  | .i32 => 32
  | .i64 => 64
  | .f64 => 64

/-- Integer-type test. -/
def IRTy.isInt : IRTy → Bool
  | .i32 => true
  | .i64 => true
  | .f64 => false

/-- The cast opcodes reachable in this fragment. -/
inductive CastKind where
  | trunc | zext | sext | sitofp | uitofp | fptosi | fptoui | bitcast
deriving DecidableEq, Repr

/-- Float binary opcodes (`FRem` never reaches a rewrite and is omitted
from the fragment). -/
inductive FBinOp where
  | fadd | fsub | fmul | fdiv
deriving DecidableEq, Repr

/-- Integer binary opcodes the rewrites create. -/
inductive IBinOp where
  | add | shl | ashr
deriving DecidableEq, Repr

/-- IR values/instructions as expression trees: an instruction together
with its operand chain.  A `double` constant is a rational; `arg` is an
opaque non-constant SSA value. -/
inductive IExpr where
  | constFP (value : ℚ)
  | constInt (ty : IRTy) (value : ℤ)
  | arg (idx : ℕ) (ty : IRTy)
  | fbin (op : FBinOp) (lhs rhs : IExpr)
  | ibin (op : IBinOp) (ty : IRTy) (lhs rhs : IExpr)
  | castE (op : CastKind) (destTy : IRTy) (operand : IExpr)
deriving DecidableEq, Repr

/-- The type of the value an expression produces — what
`Value::getType()` / `CastInst::getSrcTy()` (on the operand) return. -/
def IExpr.tyOf : IExpr → IRTy
  | .constFP _ => .f64
  | .constInt ty _ => ty
  | .arg _ ty => ty
  | .fbin _ _ _ => .f64
  | .ibin _ ty _ _ => ty
  | .castE _ d _ => d

/-- Runtime values: a (signed-representation) machine integer of some
width, or a float (modelled as an exact rational; exact for every input
used in the theorems below). -/
inductive IVal where
  | intV (ty : IRTy) (value : ℤ)
  | fpV (value : ℚ)
deriving DecidableEq, Repr

/-- Two's-complement wrap of an integer into the signed range of the
given width. -/
def wrapSigned (bits : ℕ) (v : ℤ) : ℤ :=
  (v + 2 ^ (bits - 1)) % 2 ^ bits - 2 ^ (bits - 1)

/-- Evaluation of the IR fragment. `none` is poison/undefined behaviour
(float division by zero, out-of-range float-to-int, oversize shifts).
Shifts use the numeric value of the amount operand; `ashr` is the
arithmetic (floor) shift; `sitofp`/`uitofp` are exact in the rational
model; a `bitcast` only arises type-preservingly in this fragment and is
the identity there. -/
def evalIR (env : ℕ → IVal) : IExpr → Option IVal
  | .constFP q => some (.fpV q)
  | .constInt ty v => some (.intV ty v)
  | .arg i _ => some (env i)
  | .fbin op l r =>
      match evalIR env l, evalIR env r with
      | some (.fpV a), some (.fpV b) =>
          (match op with
           | .fadd => some (IVal.fpV (a + b))
           | .fsub => some (IVal.fpV (a - b))
           | .fmul => some (IVal.fpV (a * b))
           | .fdiv => if b = 0 then none else some (IVal.fpV (a / b)))
      | _, _ => none
  | .ibin op ty l r =>
      match evalIR env l, evalIR env r with
      | some (.intV _ a), some (.intV _ b) =>
          (match op with
           | .add => some (IVal.intV ty (wrapSigned (intBits ty) (a + b)))
           | .shl =>
               if 0 ≤ b ∧ b < intBits ty then
                 some (IVal.intV ty (wrapSigned (intBits ty) (a * 2 ^ b.toNat)))
               else none
           | .ashr =>
               if 0 ≤ b ∧ b < intBits ty then
                 some (IVal.intV ty (Int.fdiv a (2 ^ b.toNat)))
               else none)
      | _, _ => none
  | .castE op dst e =>
      match evalIR env e with
      | some v =>
          (match op, v with
           | .sitofp, .intV _ a => some (IVal.fpV a)
           | .uitofp, .intV ty a => some (IVal.fpV (a % 2 ^ intBits ty))
           | .fptosi, .fpV q =>
               let t := ratTrunc q
               if -(2 ^ (intBits dst - 1)) ≤ t ∧ t < 2 ^ (intBits dst - 1) then
                 some (IVal.intV dst t)
               else none
           | .fptoui, .fpV q =>
               let t := ratTrunc q
               if 0 ≤ t ∧ t < 2 ^ intBits dst then
                 some (IVal.intV dst (wrapSigned (intBits dst) t))
               else none
           | .trunc, .intV _ a => some (IVal.intV dst (wrapSigned (intBits dst) a))
           | .sext, .intV _ a => some (IVal.intV dst a)
           | .zext, .intV ty a => some (IVal.intV dst (a % 2 ^ intBits ty))
           | _, _ => none)
      | none => none

/-- `isIntegerConstant`: a `ConstantFP` whose value is integral
(`fpVal == std::floor(fpVal)`) and within the signed 64-bit range; the
output is `static_cast<int64_t>` of it.  Non-constants never match. -/
def isIntegerConstant : IExpr → Option ℤ
  | .constFP q =>
      if q.den = 1 ∧ -(2 ^ 63) ≤ q.num ∧ q.num ≤ 2 ^ 63 - 1 then some q.num
      else none
  | _ => none

/-- `isPowerOfTwo`: the test `value > 0 && (value & (value - 1)) == 0`
(on positive values the signed bitwise AND coincides with the natural
one). -/
def isPowerOfTwo (value : ℤ) : Bool :=
  value > 0 && (value.toNat &&& (value.toNat - 1)) == 0

/-- The `while (temp > 1) { temp >>= 1; shift_amount++; }` loop of
`getShiftAmount` (and of the inlined copies in the FMul/FDiv cases),
rendered with explicit fuel; fuel equal to the starting value always
suffices since the value halves each iteration. -/
def shiftLoopFuel : ℕ → ℕ → ℕ
  | 0, _ => 0
  | fuel + 1, n => if n ≤ 1 then 0 else shiftLoopFuel fuel (n / 2) + 1

/-- `getShiftAmount` on a (positive) power of two: the number of halvings
down to 1. -/
def getShiftAmount (value : ℤ) : ℕ :=
  shiftLoopFuel value.toNat value.toNat

/-- One instruction of `optimizeNumericOperations`
(`type_directed_pass_impl.cpp`): a float binary operation whose BOTH
operands are integer-valued float constants is rewritten — `FAdd` to an
i64 add cast back to double via `SIToFP`; `FMul`/`FDiv` by a power-of-two
right constant to an i64 `Shl`/`AShr` by `log2` (the shift amount is an
i32 constant, as built by the C++), cast back to double.  Returns the
replacement and whether the instruction was rewritten. -/
def optimizeNumericBinOp (e : IExpr) : IExpr × Bool :=
  match e with
  | .fbin op l r =>
      match isIntegerConstant l, isIntegerConstant r with
      | some leftInt, some rightInt =>
          (match op with
           | .fadd =>
               (.castE .sitofp .f64
                 (.ibin .add .i64 (.constInt .i64 leftInt) (.constInt .i64 rightInt)),
                true)
           | .fmul =>
               if isPowerOfTwo rightInt then
                 (.castE .sitofp .f64
                   (.ibin .shl .i64 (.constInt .i64 leftInt)
                     (.constInt .i32 (getShiftAmount rightInt))),
                  true)
               else (e, false)
           | .fdiv =>
               if isPowerOfTwo rightInt then
                 (.castE .sitofp .f64
                   (.ibin .ashr .i64 (.constInt .i64 leftInt)
                     (.constInt .i32 (getShiftAmount rightInt))),
                  true)
               else (e, false)
           | .fsub => (e, false))
      | _, _ => (e, false)
  | _ => (e, false)

/-- `CastInst::getCastOpcode(src, false, dst, false)` restricted to this
fragment: both signedness flags are `false` in the C++ call, so integer
widening is `ZExt`, int→fp is `UIToFP` and fp→int is `FPToUI`; equal
types give `BitCast`. -/
def getCastOpcode (src dst : IRTy) : CastKind :=
  if src = dst then .bitcast
  else
    match src, dst with
    | .i32, .i64 => .zext
    | .i64, .i32 => .trunc
    | .i32, .f64 => .uitofp
    | .i64, .f64 => .uitofp
    | .f64, .i32 => .fptoui
    | .f64, .i64 => .fptoui
    | _, _ => .bitcast

/-- `CastInst::castIsValid` restricted to this fragment. -/
def castIsValid (op : CastKind) (src dst : IRTy) : Bool :=
  match op with
  | .trunc => src.isInt && dst.isInt && intBits dst < intBits src
  | .zext => src.isInt && dst.isInt && intBits src < intBits dst
  | .sext => src.isInt && dst.isInt && intBits src < intBits dst
  | .sitofp => src.isInt && dst == .f64
  | .uitofp => src.isInt && dst == .f64
  | .fptosi => src == .f64 && dst.isInt
  | .fptoui => src == .f64 && dst.isInt
  | .bitcast => bitWidth src == bitWidth dst

/-- One instruction of `eliminateUnnecessaryTypeCasts`: a cast whose
source type equals its destination type is replaced by its operand; a
cast of a cast is collapsed to the inner cast's ORIGINAL operand whenever
the inner cast's source type equals the outer destination — with no check
that the intermediate round trip was lossless; otherwise, when a single
fused cast is valid, the two casts are combined.  Returns the replacement
and whether a cast was eliminated (the counter increment). -/
def eliminateCastStep (e : IExpr) : IExpr × Bool :=
  match e with
  | .castE op dst operand =>
      if operand.tyOf = dst then (operand, true)
      else
        (match operand with
         | .castE _ _ innerOperand =>
             if innerOperand.tyOf = dst then (innerOperand, true)
             else
               let opc := getCastOpcode innerOperand.tyOf dst
               if castIsValid opc innerOperand.tyOf dst then
                 (.castE opc dst innerOperand, true)
               else (.castE op dst operand, false)
         | _ => (.castE op dst operand, false))
  | e2 => (e2, false)

/-! ## Pass statistics and the optimization manager
(`optimization_manager.cpp`) -/

/-- `QuillTypeDirectedOptimizationPass::TypeOptimizationStats`: the pass's
internal counters.  They are zero-initialised by the constructor and only
ever incremented afterwards — `resetStats()` exists but is never called
by the manager. -/
structure TypeOptimizationStats where
  specializationsApplied : ℕ := 0
  typeCastsEliminated : ℕ := 0
  numericOptimizations : ℕ := 0
  integerArithmeticOptimized : ℕ := 0
  divisionToShifts : ℕ := 0
  multiplicationToShifts : ℕ := 0
deriving DecidableEq, Repr

/-- Counter increments of one `optimizeNumericOperations` rewrite. -/
def numericStatBump (op : FBinOp) (s : TypeOptimizationStats) :
    TypeOptimizationStats :=
  match op with
  | .fadd =>
      { s with numericOptimizations := s.numericOptimizations + 1,
               integerArithmeticOptimized := s.integerArithmeticOptimized + 1 }
  | .fmul =>
      { s with numericOptimizations := s.numericOptimizations + 1,
               multiplicationToShifts := s.multiplicationToShifts + 1 }
  | .fdiv =>
      { s with numericOptimizations := s.numericOptimizations + 1,
               divisionToShifts := s.divisionToShifts + 1 }
  | .fsub => s

/-- `optimizeNumericOperations` over an instruction and its operand chain:
operands are processed before their users (the C++ sweeps each block in
program order, where operands precede uses), then the instruction itself
is rewritten, bumping the pass counters. -/
def optNumericSweep (s : TypeOptimizationStats) : IExpr → IExpr × TypeOptimizationStats
  | .fbin op l r =>
      let rl := optNumericSweep s l
      let rr := optNumericSweep rl.2 r
      let e2 := IExpr.fbin op rl.1 rr.1
      let stepped := optimizeNumericBinOp e2
      (stepped.1, if stepped.2 then numericStatBump op rr.2 else rr.2)
  | .ibin op ty l r =>
      let rl := optNumericSweep s l
      let rr := optNumericSweep rl.2 r
      (IExpr.ibin op ty rl.1 rr.1, rr.2)
  | .castE op dst e =>
      let re := optNumericSweep s e
      (IExpr.castE op dst re.1, re.2)
  | e => (e, s)

/-- `eliminateUnnecessaryTypeCasts` over an instruction and its operand
chain, bumping `type_casts_eliminated` per rewrite. -/
def elimCastSweep (s : TypeOptimizationStats) : IExpr → IExpr × TypeOptimizationStats
  | .fbin op l r =>
      let rl := elimCastSweep s l
      let rr := elimCastSweep rl.2 r
      (IExpr.fbin op rl.1 rr.1, rr.2)
  | .ibin op ty l r =>
      let rl := elimCastSweep s l
      let rr := elimCastSweep rl.2 r
      (IExpr.ibin op ty rl.1 rr.1, rr.2)
  | .castE op dst e =>
      let re := elimCastSweep s e
      let stepped := eliminateCastStep (IExpr.castE op dst re.1)
      (stepped.1,
       if stepped.2 then
         { re.2 with typeCastsEliminated := re.2.typeCastsEliminated + 1 }
       else re.2)
  | e => (e, s)

/-- Instruction loop of `optimizeNumericOperations` over a function body. -/
def runNumericList (s : TypeOptimizationStats) :
    List IExpr → List IExpr × TypeOptimizationStats
  | [] => ([], s)
  | e :: es =>
      let r := optNumericSweep s e
      let rr := runNumericList r.2 es
      (r.1 :: rr.1, rr.2)

/-- Instruction loop of `eliminateUnnecessaryTypeCasts` over a function
body. -/
def runElimCastList (s : TypeOptimizationStats) :
    List IExpr → List IExpr × TypeOptimizationStats
  | [] => ([], s)
  | e :: es =>
      let r := elimCastSweep s e
      let rr := runElimCastList r.2 es
      (r.1 :: rr.1, rr.2)

/-- `QuillTypeDirectedOptimizationPass::run` on one function (a list of
instruction trees): numeric optimization, then cast elimination.  The
remaining sub-passes (`specializeGenericFunctions`,
`optimizePolymorphicCalls`, `inlineMonomorphicFunctions`) only count call
instructions, which this fragment does not contain, and rewrite nothing. -/
def runTypeDirectedOnFunction (s : TypeOptimizationStats) (F : List IExpr) :
    List IExpr × TypeOptimizationStats :=
  let afterNumeric := runNumericList s F
  runElimCastList afterNumeric.2 afterNumeric.1

/-- The per-function pass loop of `runOptimizations` for the type-directed
pass: the pass object's counters thread through every function of every
call, and are never reset. -/
def runTypeDirectedOnModule (s : TypeOptimizationStats) :
    List (List IExpr) → List (List IExpr) × TypeOptimizationStats
  | [] => ([], s)
  | F :: rest =>
      let r := runTypeDirectedOnFunction s F
      let rr := runTypeDirectedOnModule r.2 rest
      (r.1 :: rr.1, rr.2)

/-- `QuillOptimizationManager::OptimizationStats` (wall-clock time
omitted). -/
structure OptimizationStats where
  instructionsEliminated : ℕ := 0
  constantsFolded : ℕ := 0
  functionsInlined : ℕ := 0
  loopsOptimized : ℕ := 0
  typeSpecializations : ℕ := 0
  typeCastsEliminated : ℕ := 0
  numericOperationsOptimized : ℕ := 0
  divisionsToShifts : ℕ := 0
  multiplicationsToShifts : ℕ := 0
deriving DecidableEq, Repr

/-- The manager: its aggregate `stats` snapshot plus the persistent
type-directed pass object (present only at O3, null below), carrying the
pass's internal counters. -/
structure OptimizationManager where
  stats : OptimizationStats
  typeDirectedPass : Option TypeOptimizationStats
deriving DecidableEq, Repr

/-- `QuillOptimizationManager::runOptimizations`: resets the manager's
`stats` struct (`stats = OptimizationStats{}`), runs the pipeline over
every non-declaration function (of the selected passes, only the
type-directed pass touches the counters modelled here), and finally — when
the type-directed pass exists — copies that pass's CUMULATIVE internal
counters into the snapshot.  Returns the updated manager and the rewritten
module. -/
def runOptimizations (mgr : OptimizationManager) (M : List (List IExpr)) :
    OptimizationManager × List (List IExpr) :=
  let stats0 : OptimizationStats := {}
  match mgr.typeDirectedPass with
  | some ps =>
      let r := runTypeDirectedOnModule ps M
      ({ stats :=
          { stats0 with
            typeSpecializations := r.2.specializationsApplied,
            typeCastsEliminated := r.2.typeCastsEliminated,
            numericOperationsOptimized := r.2.numericOptimizations,
            divisionsToShifts := r.2.divisionToShifts,
            multiplicationsToShifts := r.2.multiplicationToShifts },
         typeDirectedPass := some r.2 },
       r.1)
  | none => ({ stats := stats0, typeDirectedPass := none }, M)

end Quill

namespace Quill

/-! ## Shared helper lemmas -/

/-- Truncating division by one is the identity. -/
theorem Int.tdiv_one_eq (n : ℤ) : Int.tdiv n 1 = n := by
  cases n with
  | ofNat m => simp [Int.tdiv]
  | negSucc m =>
      simp [Int.tdiv, Int.negSucc_eq]
      try ring

/-- Truncation of an integral rational is its numerator. -/
theorem ratTrunc_eq_num_of_den_one {q : ℚ} (h : q.den = 1) :
    ratTrunc q = q.num := by
  unfold ratTrunc
  rw [h]
  simpa using Int.tdiv_one_eq q.num

/-- A rational survives the mathematical truncation round trip exactly
when its denominator is one. -/
theorem ratTrunc_roundTrip_iff (q : ℚ) :
    (q = ((ratTrunc q : ℤ) : ℚ)) ↔ q.den = 1 := by
  constructor
  · intro h
    rw [h]
    exact Rat.den_intCast _
  · intro h
    have h2 : ((q.num : ℤ) : ℚ) = q := Rat.coe_int_num_of_den_eq_one h
    have h3 : ratTrunc q = q.num := by
      unfold ratTrunc
      rw [h]
      simpa using Int.tdiv_one_eq q.num
    rw [h3, h2]

end Quill

namespace Quill

/-- C9 counterexample: the integral literal `2147483648 = 2^31` has no
fractional part, yet its `static_cast<int>` round trip does not fit the
32-bit `int` (undefined behaviour in C++, a failed comparison in
practice), so the inferred type is Float — the claim's "Int if the value
has no fractional part" fails outside the int range. -/
theorem C9_large_integral_literal_infers_float :
    ((2147483648 : ℚ)).den = 1 ∧
    (inferNumberType 2147483648).type = some Ty.float := by
  refine ⟨by simp, ?_⟩
  rw [inferNumberType, if_neg]
  rintro ⟨-, h2, -⟩
  have h4 : ratTrunc (2147483648 : ℚ) = 2147483648 := by
    rw [ratTrunc_eq_num_of_den_one (by simp)]
    simp
  rw [h4] at h2
  norm_num at h2

/-- C9 (amended): for every Number literal expression, the inferred type
is Int exactly when the literal's value has no fractional part
(denominator one in the exact rational model of the C++ `double`) AND its
value lies in the 32-bit `int` range `[-2^31, 2^31)` of the
`static_cast<int>` used for the test; otherwise — fractional part, or an
integral value outside that range — the inferred type is Float. -/
theorem C9_number_literal_type_in_range (q : ℚ) :
    ((inferNumberType q).type = some Ty.int ↔
      (q.den = 1 ∧ -(2 ^ 31) ≤ q.num ∧ q.num < 2 ^ 31)) ∧
    ((inferNumberType q).type = some Ty.float ↔
      ¬(q.den = 1 ∧ -(2 ^ 31) ≤ q.num ∧ q.num < 2 ^ 31)) := by
  unfold inferNumberType
  by_cases hc : -(2 ^ 31) ≤ ratTrunc q ∧ ratTrunc q < 2 ^ 31 ∧
      q = ((ratTrunc q : ℤ) : ℚ)
  · rw [if_pos hc]
    obtain ⟨h1, h2, h3⟩ := hc
    have hden := (ratTrunc_roundTrip_iff q).mp h3
    have hnum := ratTrunc_eq_num_of_den_one hden
    rw [hnum] at h1 h2
    exact ⟨⟨fun _ => ⟨hden, h1, h2⟩, fun _ => rfl⟩,
           ⟨fun h => absurd (Option.some.inj h) (fun hh => Ty.noConfusion hh),
            fun h => absurd ⟨hden, h1, h2⟩ h⟩⟩
  · rw [if_neg hc]
    have hnot : ¬(q.den = 1 ∧ -(2 ^ 31) ≤ q.num ∧ q.num < 2 ^ 31) := by
      rintro ⟨hden, hr1, hr2⟩
      have hnum := ratTrunc_eq_num_of_den_one hden
      exact hc ⟨by rw [hnum]; exact hr1, by rw [hnum]; exact hr2,
        (ratTrunc_roundTrip_iff q).mpr hden⟩
    exact ⟨⟨fun h => absurd (Option.some.inj h) (fun hh => Ty.noConfusion hh),
            fun h => absurd h hnot⟩,
           ⟨fun _ => hnot, fun _ => rfl⟩⟩

end Quill

namespace Quill

/-- C10 counterexample: the claim asserts `isAssignableFrom(null)` is false
for EVERY Type variant, but `UnknownType::isAssignableFrom` is the
unconditional `return true` and accepts even a null argument. -/
theorem C10_unknown_accepts_null : Ty.unknown.isAssignableFromOpt none = true := rfl

/-- C10 (amended): every Type Model operation is total on a null operand —
`equals(null)` is false for every variant; `isAssignableFrom(null)` is
false for every variant EXCEPT Unknown, which returns true on any
argument including null; `promoteNumericTypes` and `unifyTypes` return an
Error type when either argument is null. -/
theorem C10_null_operand_totality :
    (∀ t : Ty, t.equalsOpt none = false) ∧
    (∀ t : Ty, t ≠ Ty.unknown → t.isAssignableFromOpt none = false) ∧
    (Ty.unknown.isAssignableFromOpt none = true) ∧
    (∀ a : Option Ty,
      promoteNumericTypes none a = Ty.error "null type in promotion" ∧
      promoteNumericTypes a none = Ty.error "null type in promotion" ∧
      unifyTypes none a = Ty.error "null type in unification" ∧
      unifyTypes a none = Ty.error "null type in unification") := by
  refine ⟨fun t => rfl, ?_, rfl, ?_⟩
  · intro t ht
    cases t with
    | unknown => exact absurd rfl ht
    | int => rfl
    | float => rfl
    | bool => rfl
    | str => rfl
    | void => rfl
    | func ps r => rfl
    | list e => rfl
    | tuple es => rfl
    | union ts => rfl
    | generic n cs => rfl
    | dunion vs => rfl
    | iface n ms => rfl
    | error m => rfl
  · intro a
    cases a with
    | none => exact ⟨rfl, rfl, rfl, rfl⟩
    | some t => exact ⟨rfl, rfl, rfl, rfl⟩

/-- C10 witness: instantiating the null-totality theorem at the Int type. -/
theorem C10_null_operand_totality_witness :
    Ty.int ≠ Ty.unknown ∧ Ty.int.isAssignableFromOpt none = false :=
  ⟨fun h => Ty.noConfusion h,
   C10_null_operand_totality.2.1 Ty.int (fun h => Ty.noConfusion h)⟩

end Quill

namespace Quill

/-! ## Well-formedness and reflexivity of `equals` -/

/-- Key uniqueness for a tagged list (no two discriminated-union variants
with the same tag; no two interface methods with the same name). -/
def distinctKeys : List (String × Ty) → Bool
  | [] => true
  | (k, _) :: ps => !(ps.any (fun p => p.1 == k)) && distinctKeys ps

mutual

/-- A Type value is well formed when every discriminated union in it has
pairwise distinct variant tags and every interface pairwise distinct
method names.  (The `DiscriminatedUnionType`/`InterfaceType` APIs only
ever read the FIRST entry per tag, so duplicate keys make later entries
unreachable.) -/
def Ty.wellFormed : Ty → Bool
  | .func ps r => Ty.wellFormedList ps && r.wellFormed
  | .list e => e.wellFormed
  | .tuple es => Ty.wellFormedList es
  | .union ts => Ty.wellFormedList ts
  | .generic _ cs => Ty.wellFormedList cs
  | .dunion vs => distinctKeys vs && Ty.wellFormedPairs vs
  | .iface _ ms => distinctKeys ms && Ty.wellFormedPairs ms
  | _ => true
termination_by t => sizeOf t
decreasing_by all_goals simp_wf <;> omega

/-- All members well formed. -/
def Ty.wellFormedList : List Ty → Bool
  | [] => true
  | t :: ts => t.wellFormed && Ty.wellFormedList ts
termination_by l => sizeOf l
decreasing_by all_goals simp_wf <;> omega

/-- All payloads well formed. -/
def Ty.wellFormedPairs : List (String × Ty) → Bool
  | [] => true
  | (_, t) :: ps => t.wellFormed && Ty.wellFormedPairs ps
termination_by l => sizeOf l
decreasing_by all_goals simp_wf <;> omega

end

/-- Members of a well-formed member list are well formed. -/
theorem wellFormedList_mem {l : List Ty} {x : Ty}
    (hl : Ty.wellFormedList l = true) (hx : x ∈ l) : x.wellFormed = true := by
  induction l with
  | nil => cases hx
  | cons t ts ih =>
      rw [Ty.wellFormedList] at hl
      rcases List.mem_cons.mp hx with h | h
      · subst h; exact (Bool.and_eq_true_iff.mp hl).1
      · exact ih (Bool.and_eq_true_iff.mp hl).2 h

/-- Payloads of a well-formed pair list are well formed. -/
theorem wellFormedPairs_mem {l : List (String × Ty)} {k : String} {x : Ty}
    (hl : Ty.wellFormedPairs l = true) (hx : (k, x) ∈ l) : x.wellFormed = true := by
  induction l with
  | nil => cases hx
  | cons p ps ih =>
      obtain ⟨k2, x2⟩ := p
      rw [Ty.wellFormedPairs] at hl
      rcases List.mem_cons.mp hx with h | h
      · cases h; exact (Bool.and_eq_true_iff.mp hl).1
      · exact ih (Bool.and_eq_true_iff.mp hl).2 h

/-- Pairwise reflexivity lifts to `equalsList`. -/
theorem equalsList_refl {l : List Ty}
    (h : ∀ x ∈ l, x.equals x = true) : Ty.equalsList l l = true := by
  induction l with
  | nil => rw [Ty.equalsList]
  | cons t ts ih =>
      rw [Ty.equalsList]
      exact Bool.and_eq_true_iff.mpr
        ⟨h t (List.mem_cons_self t ts), ih (fun x hx => h x (List.mem_cons_of_mem t hx))⟩

/-- A self-equal member matches inside its own union. -/
theorem hasMatchIn_of_mem {t : Ty} {l : List Ty} (hmem : t ∈ l)
    (hrefl : t.equals t = true) : Ty.hasMatchIn t l = true := by
  induction l with
  | nil => cases hmem
  | cons u us ih =>
      rw [Ty.hasMatchIn]
      rcases List.mem_cons.mp hmem with h | h
      · subst h; exact Bool.or_eq_true_iff.mpr (Or.inl hrefl)
      · exact Bool.or_eq_true_iff.mpr (Or.inr (ih h))

/-- Memberwise matching lifts to `allHaveMatch`. -/
theorem allHaveMatch_of_forall {l0 l : List Ty}
    (h : ∀ x ∈ l0, Ty.hasMatchIn x l = true) : Ty.allHaveMatch l0 l = true := by
  induction l0 with
  | nil => rw [Ty.allHaveMatch]
  | cons t ts ih =>
      rw [Ty.allHaveMatch]
      exact Bool.and_eq_true_iff.mpr
        ⟨h t (List.mem_cons_self t ts), ih (fun x hx => h x (List.mem_cons_of_mem t hx))⟩

/-- With distinct keys, the first entry found for a member's own tag is
that member itself, so a self-equal payload passes `firstMatchEquals`. -/
theorem firstMatchEquals_of_mem {ws : List (String × Ty)} {tag : String} {dt : Ty}
    (hdk : distinctKeys ws = true) (hmem : (tag, dt) ∈ ws)
    (hrefl : dt.equals dt = true) : Ty.firstMatchEquals dt tag ws = true := by
  induction ws with
  | nil => cases hmem
  | cons p ps ih =>
      obtain ⟨k, d⟩ := p
      rw [distinctKeys] at hdk
      have hdk1 := (Bool.and_eq_true_iff.mp hdk).1
      have hdk2 := (Bool.and_eq_true_iff.mp hdk).2
      rw [Ty.firstMatchEquals]
      rcases List.mem_cons.mp hmem with h | h
      · obtain ⟨h1, h2⟩ := Prod.mk.injEq .. ▸ h
        cases h
        simp only [beq_self_eq_true, if_true]
        exact hrefl
      · by_cases hk : k = tag
        · exfalso
          subst hk
          have : ps.any (fun p => p.1 == k) = true :=
            List.any_eq_true.mpr ⟨(k, dt), h, beq_self_eq_true k⟩
          rw [this] at hdk1
          cases hdk1
        · have : (k == tag) = false := beq_eq_false_iff_ne.mpr hk
          rw [this]
          simp only [Bool.false_eq_true, if_false]
          exact ih hdk2 h

/-- Entrywise matching lifts to `allTagsMatch`. -/
theorem allTagsMatch_of_forall {vs ws : List (String × Ty)}
    (h : ∀ p ∈ vs, Ty.firstMatchEquals p.2 p.1 ws = true) :
    Ty.allTagsMatch vs ws = true := by
  induction vs with
  | nil => rw [Ty.allTagsMatch]
  | cons p ps ih =>
      obtain ⟨tag, dt⟩ := p
      rw [Ty.allTagsMatch]
      exact Bool.and_eq_true_iff.mpr
        ⟨h (tag, dt) (List.mem_cons_self _ _),
         ih (fun q hq => h q (List.mem_cons_of_mem _ hq))⟩

/-- Entrywise matching lifts to `allNamesMatch`. -/
theorem allNamesMatch_of_forall {ms ns : List (String × Ty)}
    (h : ∀ p ∈ ms, Ty.firstMatchEquals p.2 p.1 ns = true) :
    Ty.allNamesMatch ms ns = true := by
  induction ms with
  | nil => rw [Ty.allNamesMatch]
  | cons p ps ih =>
      obtain ⟨nm, sig⟩ := p
      rw [Ty.allNamesMatch]
      exact Bool.and_eq_true_iff.mpr
        ⟨h (nm, sig) (List.mem_cons_self _ _),
         ih (fun q hq => h q (List.mem_cons_of_mem _ hq))⟩

/-- Strong-induction core of reflexivity: every well-formed type equals
itself. -/
theorem equals_refl_aux :
    ∀ (n : ℕ) (t : Ty), sizeOf t ≤ n → t.wellFormed = true → t.equals t = true := by
  intro n
  induction n using Nat.strong_induction_on with
  | _ n ih =>
    intro t hle hwf
    cases t with
    | int => rw [Ty.equals]; rfl
    | float => rw [Ty.equals]; rfl
    | bool => rw [Ty.equals]; rfl
    | str => rw [Ty.equals]; rfl
    | void => rw [Ty.equals]; rfl
    | unknown => rw [Ty.equals]; rfl
    | error m => rw [Ty.equals]; rfl
    | generic nm cs =>
        rw [Ty.equals]
        simp [Ty.kind, Ty.tyName]
    | func ps r =>
        rw [Ty.wellFormed] at hwf
        have hwf1 := (Bool.and_eq_true_iff.mp hwf).1
        have hwf2 := (Bool.and_eq_true_iff.mp hwf).2
        have hsz : sizeOf (Ty.func ps r) = 1 + sizeOf ps + sizeOf r := by simp
        rw [Ty.equals]
        refine Bool.and_eq_true_iff.mpr ⟨equalsList_refl ?_, ?_⟩
        · intro x hx
          have hx1 : sizeOf x < sizeOf ps := List.sizeOf_lt_of_mem hx
          exact ih (sizeOf x) (by omega) x le_rfl (wellFormedList_mem hwf1 hx)
        · exact ih (sizeOf r) (by omega) r le_rfl hwf2
    | list e =>
        rw [Ty.wellFormed] at hwf
        have hsz : sizeOf (Ty.list e) = 1 + sizeOf e := by simp
        rw [Ty.equals]
        exact ih (sizeOf e) (by omega) e le_rfl hwf
    | tuple es =>
        rw [Ty.wellFormed] at hwf
        have hsz : sizeOf (Ty.tuple es) = 1 + sizeOf es := by simp
        rw [Ty.equals]
        refine equalsList_refl ?_
        intro x hx
        have hx1 : sizeOf x < sizeOf es := List.sizeOf_lt_of_mem hx
        exact ih (sizeOf x) (by omega) x le_rfl (wellFormedList_mem hwf hx)
    | union ts =>
        rw [Ty.wellFormed] at hwf
        have hsz : sizeOf (Ty.union ts) = 1 + sizeOf ts := by simp
        rw [Ty.equals]
        refine Bool.and_eq_true_iff.mpr ⟨beq_self_eq_true _, allHaveMatch_of_forall ?_⟩
        intro x hx
        have hx1 : sizeOf x < sizeOf ts := List.sizeOf_lt_of_mem hx
        exact hasMatchIn_of_mem hx
          (ih (sizeOf x) (by omega) x le_rfl (wellFormedList_mem hwf hx))
    | dunion vs =>
        rw [Ty.wellFormed] at hwf
        have hwf1 := (Bool.and_eq_true_iff.mp hwf).1
        have hwf2 := (Bool.and_eq_true_iff.mp hwf).2
        have hsz : sizeOf (Ty.dunion vs) = 1 + sizeOf vs := by simp
        rw [Ty.equals]
        refine Bool.and_eq_true_iff.mpr ⟨beq_self_eq_true _, allTagsMatch_of_forall ?_⟩
        intro p hp
        obtain ⟨tag, dt⟩ := p
        have hp1 : sizeOf (tag, dt) < sizeOf vs := List.sizeOf_lt_of_mem hp
        have hp2 : sizeOf dt < sizeOf (tag, dt) := by simp
        exact firstMatchEquals_of_mem hwf1 hp
          (ih (sizeOf dt) (by omega) dt le_rfl (wellFormedPairs_mem hwf2 hp))
    | iface nm ms =>
        rw [Ty.wellFormed] at hwf
        have hwf1 := (Bool.and_eq_true_iff.mp hwf).1
        have hwf2 := (Bool.and_eq_true_iff.mp hwf).2
        have hsz : sizeOf (Ty.iface nm ms) = 1 + sizeOf nm + sizeOf ms := by simp
        rw [Ty.equals]
        refine Bool.and_eq_true_iff.mpr
          ⟨Bool.and_eq_true_iff.mpr ⟨beq_self_eq_true _, beq_self_eq_true _⟩,
           allNamesMatch_of_forall ?_⟩
        intro p hp
        obtain ⟨mn, sig⟩ := p
        have hp1 : sizeOf (mn, sig) < sizeOf ms := List.sizeOf_lt_of_mem hp
        have hp2 : sizeOf sig < sizeOf (mn, sig) := by simp
        exact firstMatchEquals_of_mem hwf1 hp
          (ih (sizeOf sig) (by omega) sig le_rfl (wellFormedPairs_mem hwf2 hp))

end Quill

namespace Quill

/-- C2 counterexample: the claim says an Unknown or Error type never
equals any Type, itself included.  But `UnknownType` and `ErrorType` do
not override `equals`, so the base kind-and-name comparison makes an
Unknown equal any Unknown, and an Error equal any Error (the diagnostic
message is not compared). -/
theorem C2_unknown_error_self_equal :
    Ty.unknown.equals Ty.unknown = true ∧
    (Ty.error "type error").equals (Ty.error "other message") = true := by
  constructor
  · rw [Ty.equals]; rfl
  · rw [Ty.equals]; rfl

/-- C2 (amended): `equals(T, T)` holds for every constructed Type `T` —
Unknown and Error included — provided no discriminated union in `T` has
two variants with the same tag and no interface two methods with the same
name (first-match lookup makes duplicate-key entries unreachable, which
breaks reflexivity there). -/
theorem C2_equals_refl (t : Ty) (h : t.wellFormed = true) : t.equals t = true :=
  equals_refl_aux (sizeOf t) t le_rfl h

/-- C2 witness: a union containing Int, Unknown and an Error equals
itself. -/
theorem C2_equals_refl_witness :
    (Ty.union [Ty.int, Ty.unknown, Ty.error "e"]).wellFormed = true ∧
    (Ty.union [Ty.int, Ty.unknown, Ty.error "e"]).equals
      (Ty.union [Ty.int, Ty.unknown, Ty.error "e"]) = true :=
  ⟨by simp [Ty.wellFormed, Ty.wellFormedList],
   C2_equals_refl _ (by simp [Ty.wellFormed, Ty.wellFormedList])⟩

end Quill

namespace Quill

/-- A checker state whose environment binds `f` to the signature
`(int) -> int` — the name exists, but a call `f("hello")` matches no
signature. -/
def overloadState : CheckerState :=
  { typeEnv := TypeEnvironment.init.define "f" (Ty.func [Ty.int] Ty.int),
    currentContext := none }

/-- C3 counterexample: `f` IS bound, the call's argument type is not
assignable to the parameter type, and the resulting report is the
"Undefined function: f" message — not a "no matching overload" report,
which the checker never produces. -/
theorem C3_bound_name_reported_undefined :
    (overloadState.typeEnv.lookup "f").isSome = true ∧
    formatUndefinedFunction "f" = "Undefined function: f" ∧
    inferExpressionType overloadState (Expr.call "f" [Expr.strE "hello"]) =
      { type := none, errors := [formatUndefinedFunction "f"], warnings := [] } := by
  refine ⟨rfl, rfl, ?_⟩
  simp [inferExpressionType, inferArgTypes, TypeCheckResult.hasErrors, overloadState,
    TypeEnvironment.lookupFunction, TypeEnvironment.lookup, TypeEnvironment.define,
    TypeEnvironment.init, scopesLookup, scopeLookup, scopeInsert, paramsAccept,
    Ty.isAssignableFromOpt, Ty.assignable, Ty.equals, Ty.kind]

/-- C3 (amended): whenever `lookupFunction` returns null — whether the
name is unbound, bound to a non-function, or bound to a function whose
signature does not match the argument types — `inferCallType` reports the
single "Undefined function: <name>" message; no "no matching overload"
report exists in the checker. -/
theorem C3_lookup_failure_message (st : CheckerState) (callee : String)
    (args : List Expr) (argTys : List (Option Ty))
    (hargs : inferArgTypes st args = Sum.inr argTys)
    (hfail : st.typeEnv.lookupFunction callee argTys = none) :
    inferExpressionType st (Expr.call callee args) =
      { type := none, errors := [formatUndefinedFunction callee], warnings := [] } := by
  simp only [inferExpressionType, hargs, hfail]

/-- C3 witness: the amended theorem applied to the bound-but-mismatched
call `f("hello")` against `f : (int) -> int`. -/
theorem C3_lookup_failure_message_witness :
    inferArgTypes overloadState [Expr.strE "hello"] = Sum.inr [some Ty.str] ∧
    overloadState.typeEnv.lookupFunction "f" [some Ty.str] = none ∧
    inferExpressionType overloadState (Expr.call "f" [Expr.strE "hello"]) =
      { type := none, errors := [formatUndefinedFunction "f"], warnings := [] } := by
  have hargs : inferArgTypes overloadState [Expr.strE "hello"] = Sum.inr [some Ty.str] := by
    simp [inferArgTypes, inferExpressionType, TypeCheckResult.hasErrors]
  have hfail : overloadState.typeEnv.lookupFunction "f" [some Ty.str] = none := by
    simp [overloadState, TypeEnvironment.lookupFunction, TypeEnvironment.lookup,
      TypeEnvironment.define, TypeEnvironment.init, scopesLookup, scopeLookup,
      scopeInsert, paramsAccept, Ty.isAssignableFromOpt, Ty.assignable, Ty.equals,
      Ty.kind]
  exact ⟨hargs, hfail, C3_lookup_failure_message overloadState "f" _ _ hargs hfail⟩

end Quill

namespace Quill

/-- Call-map lookup at a matching head. -/
theorem callMapLookup_cons_pos {p : String × List String} {l : CallMap}
    {k : String} (h : (p.1 == k) = true) : callMapLookup (p :: l) k = p.2 := by
  rw [callMapLookup, @List.find?_cons_of_pos _ (fun q => q.1 == k) p l h]
  rfl

/-- Call-map lookup skipping a non-matching head. -/
theorem callMapLookup_cons_neg {p : String × List String} {l : CallMap}
    {k : String} (h : (p.1 == k) = false) :
    callMapLookup (p :: l) k = callMapLookup l k := by
  rw [callMapLookup, @List.find?_cons_of_neg _ (fun q => q.1 == k) p l
    (by simp only [h]; exact Bool.false_ne_true)]
  rfl

/-- Updating a call-map key and reading it back yields the new value. -/
theorem callMapLookup_update_self (cm : CallMap) (n : String) (v : List String) :
    callMapLookup (callMapUpdate cm n v) n = v := by
  rw [callMapUpdate]
  by_cases h : cm.any (fun p => p.1 == n) = true
  · rw [if_pos h]
    induction cm with
    | nil => cases h
    | cons p ps ih =>
        rw [List.map_cons]
        by_cases hp : (p.1 == n) = true
        · rw [if_pos hp, callMapLookup_cons_pos (beq_self_eq_true n)]
        · have hpb : (p.1 == n) = false := Bool.eq_false_iff.mpr hp
          rw [if_neg hp, callMapLookup_cons_neg hpb]
          have hps : ps.any (fun q => q.1 == n) = true := by
            rcases List.any_eq_true.mp h with ⟨q, hq, hqn⟩
            rcases List.mem_cons.mp hq with h2 | h2
            · subst h2; rw [hqn] at hpb; cases hpb
            · exact List.any_eq_true.mpr ⟨q, h2, hqn⟩
          exact ih hps
  · rw [if_neg h]
    induction cm with
    | nil => exact callMapLookup_cons_pos (beq_self_eq_true n)
    | cons p ps ih =>
        have hpb : (p.1 == n) = false := by
          rcases Bool.eq_false_or_eq_true (p.1 == n) with h2 | h2
          · exact absurd (List.any_eq_true.mpr ⟨p, List.mem_cons_self p ps, h2⟩) h
          · exact h2
        rw [List.cons_append, callMapLookup_cons_neg hpb]
        refine ih ?_
        intro h2
        rcases List.any_eq_true.mp h2 with ⟨q, hq, hqn⟩
        exact h (List.any_eq_true.mpr ⟨q, List.mem_cons_of_mem p hq, hqn⟩)

/-- Updating one call-map key leaves every other key unchanged. -/
theorem callMapLookup_update_ne (cm : CallMap) (n : String) (v : List String)
    (k : String) (hk : k ≠ n) :
    callMapLookup (callMapUpdate cm n v) k = callMapLookup cm k := by
  have hnk : (n == k) = false := beq_eq_false_iff_ne.mpr (fun e => hk e.symm)
  rw [callMapUpdate]
  by_cases h : cm.any (fun p => p.1 == n) = true
  · rw [if_pos h]
    clear h
    induction cm with
    | nil => rfl
    | cons p ps ih =>
        rw [List.map_cons]
        by_cases hp : (p.1 == n) = true
        · have hpk : (p.1 == k) = false := by
            have : p.1 = n := beq_iff_eq.mp hp
            exact beq_eq_false_iff_ne.mpr (by rw [this]; exact fun e => hk e.symm)
          rw [if_pos hp, callMapLookup_cons_neg hnk, callMapLookup_cons_neg hpk]
          exact ih
        · rw [if_neg hp]
          by_cases hpk : (p.1 == k) = true
          · rw [callMapLookup_cons_pos hpk, callMapLookup_cons_pos hpk]
          · have hpkb : (p.1 == k) = false := Bool.eq_false_iff.mpr hpk
            rw [callMapLookup_cons_neg hpkb, callMapLookup_cons_neg hpkb]
            exact ih
  · rw [if_neg h]
    induction cm with
    | nil => rw [List.nil_append, callMapLookup_cons_neg hnk]
    | cons p ps ih =>
        rw [List.cons_append]
        by_cases hpk : (p.1 == k) = true
        · rw [callMapLookup_cons_pos hpk, callMapLookup_cons_pos hpk]
        · have hpkb : (p.1 == k) = false := Bool.eq_false_iff.mpr hpk
          rw [callMapLookup_cons_neg hpkb, callMapLookup_cons_neg hpkb]
          refine ih ?_
          intro h2
          rcases List.any_eq_true.mp h2 with ⟨q, hq, hqn⟩
          exact h (List.any_eq_true.mpr ⟨q, List.mem_cons_of_mem p hq, hqn⟩)

/-- Invariant of the inlining loop: a function whose own (current) body
contains a direct call to itself is never the callee of an inlined call
site, from any state the loop can reach. -/
theorem inlineLoop_skips_selfrec :
    ∀ (calls : List (String × String)) (cm : CallMap) (f : String),
      f ∈ callMapLookup cm f →
      ∀ c : String, (c, f) ∉ (inlineLoop calls cm).2 := by
  intro calls
  induction calls with
  | nil =>
      intro cm f hf c
      rw [inlineLoop]
      exact List.not_mem_nil _
  | cons pr rest ih =>
      intro cm f hf c
      obtain ⟨caller, callee⟩ := pr
      rw [inlineLoop]
      by_cases h1 : (caller == callee) = true
      · rw [if_pos h1]
        exact ih cm f hf c
      · rw [if_neg h1]
        by_cases h2 : (callMapLookup cm callee).contains callee = true
        · rw [if_pos h2]
          exact ih cm f hf c
        · rw [if_neg h2]
          have hcf : callee ≠ f := by
            intro he
            subst he
            exact h2 (List.elem_eq_true_of_mem hf)
          intro hmem
          rcases List.mem_cons.mp hmem with he | hrec
          · exact hcf (Prod.ext_iff.mp he).2.symm
          · have hf2 : f ∈ callMapLookup
                (callMapUpdate cm caller
                  ((callMapLookup cm caller).erase callee ++ callMapLookup cm callee)) f := by
              by_cases hcall : caller = f
              · subst hcall
                rw [callMapLookup_update_self]
                exact List.mem_append.mpr
                  (Or.inl ((List.mem_erase_of_ne (fun e => hcf e.symm)).mpr hf))
              · rw [callMapLookup_update_ne cm caller _ f (fun e => hcall e.symm)]
                exact hf
            exact ih _ f hf2 c hrec

/-- C4 (amended): a DIRECTLY self-recursive function — one whose body
contains a call to itself — is never inlined at any call site by the
inlining pass. -/
theorem C4_direct_selfrec_never_inlined (M : LModule) (caller callee : String)
    (hrec : callee ∈ callMapLookup (callMapOf M) callee) :
    (caller, callee) ∉ inlinedCalls M :=
  inlineLoop_skips_selfrec (callsToInline M) (callMapOf M) callee hrec caller

/-- A module with two mutually recursive small functions: `f` calls `g`
and `g` calls `f`; each is one-level-indirectly self-recursive. -/
def mutualRecModule : LModule :=
  [ { name := "f", isDeclaration := false, blocks := [[LInstr.call (some "g")]] },
    { name := "g", isDeclaration := false, blocks := [[LInstr.call (some "f")]] } ]

/-- C4 counterexample: in `mutualRecModule`, `g` is one-level-indirectly
self-recursive (`g` calls `f`, which calls back into `g`), yet the pass
inlines the call site `f → g`: the `isRecursive` scan only detects a
callee whose own body calls itself directly. -/
theorem C4_indirect_selfrec_inlined :
    "f" ∈ callMapLookup (callMapOf mutualRecModule) "g" ∧
    "g" ∈ callMapLookup (callMapOf mutualRecModule) "f" ∧
    ("f", "g") ∈ inlinedCalls mutualRecModule := by
  refine ⟨?_, ?_, ?_⟩ <;> decide

/-- A module with a directly self-recursive small function `f` and a
caller `h`. -/
def directRecModule : LModule :=
  [ { name := "f", isDeclaration := false, blocks := [[LInstr.call (some "f")]] },
    { name := "h", isDeclaration := false, blocks := [[LInstr.call (some "f")]] } ]

/-- C4 witness: the amended theorem applied to `directRecModule` — the
call `h → f` to the directly self-recursive `f` is not inlined. -/
theorem C4_direct_selfrec_never_inlined_witness :
    "f" ∈ callMapLookup (callMapOf directRecModule) "f" ∧
    ("h", "f") ∉ inlinedCalls directRecModule :=
  ⟨by decide, C4_direct_selfrec_never_inlined directRecModule "h" "f" (by decide)⟩

end Quill

namespace Quill

/-- The lossy cast round trip `sitofp(fptosi(x))` on a double `x`: the
inner cast's source type (f64) equals the outer cast's destination type. -/
def lossyRoundTrip : IExpr :=
  IExpr.castE .sitofp .f64 (IExpr.castE .fptosi .i64 (IExpr.arg 0 .f64))

/-- An environment giving the double argument the value 2.5. -/
def envTwoPointFive : ℕ → IVal := fun _ => IVal.fpV (5/2)

/-- C5: cast elimination collapses the f64 → i64 → f64 round trip to the
original operand because the inner source type equals the outer
destination type — but the round trip truncates: at `x = 2.5` the original
chain evaluates to `2.0` while the collapsed replacement evaluates to
`2.5`, an observable value change contradicting both the claim and the
soundness every optimization pass must preserve. -/
theorem C5_cast_collapse_changes_value :
    eliminateCastStep lossyRoundTrip = (IExpr.arg 0 IRTy.f64, true) ∧
    evalIR envTwoPointFive lossyRoundTrip = some (IVal.fpV 2) ∧
    evalIR envTwoPointFive (IExpr.arg 0 IRTy.f64) = some (IVal.fpV (5/2)) ∧
    (2 : ℚ) ≠ 5/2 := by
  refine ⟨by decide, ?_, rfl, by norm_num⟩
  have h : ratTrunc (5/2 : ℚ) = 2 := by
    have h5 : (5/2 : ℚ).num = 5 := by norm_num
    have h2 : (5/2 : ℚ).den = 2 := by norm_num
    rw [ratTrunc, h5, h2]
    decide
  simp [evalIR, lossyRoundTrip, envTwoPointFive, h, intBits]

/-- The float division `7.0 / 4.0`, whose operands are integer-valued
constants and whose divisor is a power of two. -/
def divByFourExpr : IExpr :=
  IExpr.fbin .fdiv (IExpr.constFP 7) (IExpr.constFP 4)

/-- C6: at O3 the pass rewrites `FDiv 7.0, 4.0` (power-of-two test
`n > 0 && (n & (n-1)) == 0` passes for 4) to an arithmetic right shift by
`log2 4 = 2` cast back to float — but the naive float computation yields
`1.75` while the shift yields `⌊7/4⌋ = 1.0`: the results are not
bit-identical even for tiny representable integers, contradicting the
claim and the soundness of the rewrite (the same holds for every
non-exact division; the multiplication rewrite, by contrast, is exact in
range). -/
theorem C6_div_to_shift_changes_value :
    isPowerOfTwo 4 = true ∧
    optimizeNumericBinOp divByFourExpr =
      (IExpr.castE .sitofp .f64
        (IExpr.ibin .ashr .i64 (IExpr.constInt .i64 7) (IExpr.constInt .i32 2)), true) ∧
    evalIR envTwoPointFive divByFourExpr = some (IVal.fpV (7/4)) ∧
    evalIR envTwoPointFive
      (IExpr.castE .sitofp .f64
        (IExpr.ibin .ashr .i64 (IExpr.constInt .i64 7) (IExpr.constInt .i32 2)))
      = some (IVal.fpV 1) ∧
    (7/4 : ℚ) ≠ 1 := by
  refine ⟨by decide, by decide, ?_, ?_, by norm_num⟩
  · simp [evalIR, divByFourExpr]
  · simp [evalIR, intBits]

end Quill

namespace Quill

/-- Pointwise sum of pass-counter records. -/
def TypeOptimizationStats.add (a b : TypeOptimizationStats) : TypeOptimizationStats :=
  { specializationsApplied := a.specializationsApplied + b.specializationsApplied,
    typeCastsEliminated := a.typeCastsEliminated + b.typeCastsEliminated,
    numericOptimizations := a.numericOptimizations + b.numericOptimizations,
    integerArithmeticOptimized := a.integerArithmeticOptimized + b.integerArithmeticOptimized,
    divisionToShifts := a.divisionToShifts + b.divisionToShifts,
    multiplicationToShifts := a.multiplicationToShifts + b.multiplicationToShifts }

/-- Adding the zero record changes nothing. -/
theorem TypeOptimizationStats.add_empty (s : TypeOptimizationStats) :
    s.add {} = s := by
  simp [TypeOptimizationStats.add]

/-- Counter addition is associative. -/
theorem TypeOptimizationStats.add_assoc (a b c : TypeOptimizationStats) :
    (a.add b).add c = a.add (b.add c) := by
  simp [TypeOptimizationStats.add, Nat.add_assoc]

/-- A numeric-rewrite counter bump commutes with a prior total. -/
theorem numericStatBump_add (op : FBinOp) (s d : TypeOptimizationStats) :
    numericStatBump op (s.add d) = s.add (numericStatBump op d) := by
  cases op <;> simp [numericStatBump, TypeOptimizationStats.add, Nat.add_assoc]

/-- A cast-elimination counter bump commutes with a prior total. -/
theorem castStatBump_add (s d : TypeOptimizationStats) :
    { s.add d with typeCastsEliminated := (s.add d).typeCastsEliminated + 1 } =
      s.add { d with typeCastsEliminated := d.typeCastsEliminated + 1 } := by
  simp [TypeOptimizationStats.add, Nat.add_assoc]

/-- The numeric sweep rewrites independently of the incoming counters and
only ever ADDS to them: its result counters are the incoming total plus
the sweep's own standalone contribution. -/
theorem optNumericSweep_add (e : IExpr) :
    ∀ s : TypeOptimizationStats,
      optNumericSweep s e =
        ((optNumericSweep {} e).1, s.add (optNumericSweep {} e).2) := by
  induction e with
  | constFP q =>
      intro s
      simp [optNumericSweep, TypeOptimizationStats.add_empty]
  | constInt ty v =>
      intro s
      simp [optNumericSweep, TypeOptimizationStats.add_empty]
  | arg i ty =>
      intro s
      simp [optNumericSweep, TypeOptimizationStats.add_empty]
  | fbin op l r ihl ihr =>
      intro s
      rcases hl : optNumericSweep ({} : TypeOptimizationStats) l with ⟨l1, dl⟩
      rcases hr : optNumericSweep ({} : TypeOptimizationStats) r with ⟨r1, dr⟩
      have ihl1 := ihl s
      rw [hl] at ihl1
      have ihr1 := ihr (s.add dl)
      rw [hr] at ihr1
      have ihr0 := ihr dl
      rw [hr] at ihr0
      simp only [optNumericSweep]
      rw [ihl s, hl]
      simp only [hl]
      rw [ihr1, ihr0]
      rcases hstep : optimizeNumericBinOp (IExpr.fbin op l1 r1) with ⟨e2, changed⟩
      cases changed with
      | false => simp [TypeOptimizationStats.add_assoc]
      | true => simp [TypeOptimizationStats.add_assoc, numericStatBump_add]
  | ibin op ty l r ihl ihr =>
      intro s
      rcases hl : optNumericSweep ({} : TypeOptimizationStats) l with ⟨l1, dl⟩
      rcases hr : optNumericSweep ({} : TypeOptimizationStats) r with ⟨r1, dr⟩
      have ihl1 := ihl s
      rw [hl] at ihl1
      have ihr1 := ihr (s.add dl)
      rw [hr] at ihr1
      have ihr0 := ihr dl
      rw [hr] at ihr0
      simp only [optNumericSweep]
      rw [ihl s, hl]
      simp only [hl]
      rw [ihr1, ihr0]
      simp [TypeOptimizationStats.add_assoc]
  | castE op dst e ihe =>
      intro s
      rcases he : optNumericSweep ({} : TypeOptimizationStats) e with ⟨e1, de⟩
      have ihe1 := ihe s
      rw [he] at ihe1
      simp only [optNumericSweep]
      rw [ihe1, he]

/-- The cast-elimination sweep rewrites independently of the incoming
counters and only ever ADDS to them. -/
theorem elimCastSweep_add (e : IExpr) :
    ∀ s : TypeOptimizationStats,
      elimCastSweep s e =
        ((elimCastSweep {} e).1, s.add (elimCastSweep {} e).2) := by
  induction e with
  | constFP q =>
      intro s
      simp [elimCastSweep, TypeOptimizationStats.add_empty]
  | constInt ty v =>
      intro s
      simp [elimCastSweep, TypeOptimizationStats.add_empty]
  | arg i ty =>
      intro s
      simp [elimCastSweep, TypeOptimizationStats.add_empty]
  | fbin op l r ihl ihr =>
      intro s
      rcases hl : elimCastSweep ({} : TypeOptimizationStats) l with ⟨l1, dl⟩
      rcases hr : elimCastSweep ({} : TypeOptimizationStats) r with ⟨r1, dr⟩
      have ihl1 := ihl s
      rw [hl] at ihl1
      have ihr1 := ihr (s.add dl)
      rw [hr] at ihr1
      have ihr0 := ihr dl
      rw [hr] at ihr0
      simp only [elimCastSweep]
      rw [ihl s, hl]
      simp only [hl]
      rw [ihr1, ihr0]
      simp [TypeOptimizationStats.add_assoc]
  | ibin op ty l r ihl ihr =>
      intro s
      rcases hl : elimCastSweep ({} : TypeOptimizationStats) l with ⟨l1, dl⟩
      rcases hr : elimCastSweep ({} : TypeOptimizationStats) r with ⟨r1, dr⟩
      have ihl1 := ihl s
      rw [hl] at ihl1
      have ihr1 := ihr (s.add dl)
      rw [hr] at ihr1
      have ihr0 := ihr dl
      rw [hr] at ihr0
      simp only [elimCastSweep]
      rw [ihl s, hl]
      simp only [hl]
      rw [ihr1, ihr0]
      simp [TypeOptimizationStats.add_assoc]
  | castE op dst e ihe =>
      intro s
      rcases he : elimCastSweep ({} : TypeOptimizationStats) e with ⟨e1, de⟩
      have ihe1 := ihe s
      rw [he] at ihe1
      simp only [elimCastSweep]
      rw [ihe1, he]
      rcases hstep : eliminateCastStep (IExpr.castE op dst e1) with ⟨e2, changed⟩
      cases changed with
      | false => simp
      | true => simp [castStatBump_add]

/-- List version of numeric-sweep additivity. -/
theorem runNumericList_add (F : List IExpr) :
    ∀ s : TypeOptimizationStats,
      runNumericList s F =
        ((runNumericList {} F).1, s.add (runNumericList {} F).2) := by
  induction F with
  | nil =>
      intro s
      simp [runNumericList, TypeOptimizationStats.add_empty]
  | cons e es ih =>
      intro s
      rcases he : optNumericSweep ({} : TypeOptimizationStats) e with ⟨e1, de⟩
      rcases hes : runNumericList ({} : TypeOptimizationStats) es with ⟨es1, des⟩
      have h1 := optNumericSweep_add e s
      rw [he] at h1
      have h2 := ih (s.add de)
      rw [hes] at h2
      have h0 := ih de
      rw [hes] at h0
      simp only [runNumericList]
      rw [h1, he]
      simp only []
      rw [h2, h0]
      simp [TypeOptimizationStats.add_assoc, TypeOptimizationStats.add_empty]

/-- List version of cast-sweep additivity. -/
theorem runElimCastList_add (F : List IExpr) :
    ∀ s : TypeOptimizationStats,
      runElimCastList s F =
        ((runElimCastList {} F).1, s.add (runElimCastList {} F).2) := by
  induction F with
  | nil =>
      intro s
      simp [runElimCastList, TypeOptimizationStats.add_empty]
  | cons e es ih =>
      intro s
      rcases he : elimCastSweep ({} : TypeOptimizationStats) e with ⟨e1, de⟩
      rcases hes : runElimCastList ({} : TypeOptimizationStats) es with ⟨es1, des⟩
      have h1 := elimCastSweep_add e s
      rw [he] at h1
      have h2 := ih (s.add de)
      rw [hes] at h2
      have h0 := ih de
      rw [hes] at h0
      simp only [runElimCastList]
      rw [h1, he]
      simp only []
      rw [h2, h0]
      simp [TypeOptimizationStats.add_assoc, TypeOptimizationStats.add_empty]

/-- Function-level additivity of the pass run. -/
theorem runTypeDirectedOnFunction_add (F : List IExpr) (s : TypeOptimizationStats) :
    runTypeDirectedOnFunction s F =
      ((runTypeDirectedOnFunction {} F).1, s.add (runTypeDirectedOnFunction {} F).2) := by
  rcases hn : runNumericList ({} : TypeOptimizationStats) F with ⟨F1, dn⟩
  rcases hc : runElimCastList ({} : TypeOptimizationStats) F1 with ⟨F2, dc⟩
  have h1 := runNumericList_add F s
  rw [hn] at h1
  have h2 := runElimCastList_add F1 (s.add dn)
  rw [hc] at h2
  have h0 := runElimCastList_add F1 dn
  rw [hc] at h0
  simp only [runTypeDirectedOnFunction]
  rw [h1, hn]
  simp only []
  rw [h2, h0]
  simp [TypeOptimizationStats.add_assoc]

/-- Module-level additivity: the pass's counters after running over a
module equal the incoming (lifetime) total plus the module's standalone
contribution — nothing is ever reset. -/
theorem runTypeDirectedOnModule_add (M : List (List IExpr)) :
    ∀ s : TypeOptimizationStats,
      runTypeDirectedOnModule s M =
        ((runTypeDirectedOnModule {} M).1, s.add (runTypeDirectedOnModule {} M).2) := by
  induction M with
  | nil =>
      intro s
      simp [runTypeDirectedOnModule, TypeOptimizationStats.add_empty]
  | cons F Fs ih =>
      intro s
      rcases hf : runTypeDirectedOnFunction ({} : TypeOptimizationStats) F with ⟨F1, df⟩
      rcases hfs : runTypeDirectedOnModule ({} : TypeOptimizationStats) Fs with ⟨Fs1, dfs⟩
      have h1 := runTypeDirectedOnFunction_add F s
      rw [hf] at h1
      have h2 := ih (s.add df)
      rw [hfs] at h2
      have h0 := ih df
      rw [hfs] at h0
      simp only [runTypeDirectedOnModule]
      rw [h1, hf]
      simp only []
      rw [h2, h0]
      simp [TypeOptimizationStats.add_assoc, TypeOptimizationStats.add_empty]

end Quill

namespace Quill

/-- A freshly constructed O3 manager: empty snapshot, type-directed pass
present with zero-initialised internal counters. -/
def freshO3Manager : OptimizationManager :=
  { stats := {}, typeDirectedPass := some {} }

/-- A one-function module containing a single same-type (f64 → f64) cast:
every run of the type-directed pass over it eliminates exactly one cast. -/
def sameCastModule : List (List IExpr) :=
  [[IExpr.castE .bitcast .f64 (IExpr.arg 0 .f64)]]

/-- C7 counterexample: two successive `runOptimizations` calls on the
same manager, over the SAME module, report different snapshots — the
first reports 1 cast eliminated, the second reports 2, although the
second call's own work is identical to the first's.  The snapshot
therefore does not reflect only the work of that call. -/
theorem C7_second_run_accumulates :
    (runOptimizations freshO3Manager sameCastModule).1.stats.typeCastsEliminated = 1 ∧
    (runOptimizations (runOptimizations freshO3Manager sameCastModule).1
        sameCastModule).1.stats.typeCastsEliminated = 2 := by
  exact ⟨by decide, by decide⟩

/-- C7 (amended): `runOptimizations` resets the MANAGER'S aggregate
counters at its start — so the non-type-directed counters of the snapshot
(instructions eliminated, constants folded, functions inlined, loops
optimized) are zeroed every call — but it never resets the type-directed
pass's internal counters; the type-directed entries of the snapshot equal
the pass's pre-call lifetime totals plus this call's own work, i.e. they
accumulate across every earlier `runOptimizations` call on the same
manager. -/
theorem C7_snapshot_accumulation (mgr : OptimizationManager)
    (M : List (List IExpr)) (ps : TypeOptimizationStats)
    (h : mgr.typeDirectedPass = some ps) :
    (runOptimizations mgr M).1.stats.instructionsEliminated = 0 ∧
    (runOptimizations mgr M).1.stats.constantsFolded = 0 ∧
    (runOptimizations mgr M).1.stats.functionsInlined = 0 ∧
    (runOptimizations mgr M).1.stats.loopsOptimized = 0 ∧
    (runOptimizations mgr M).1.stats.typeCastsEliminated =
      ps.typeCastsEliminated + (runTypeDirectedOnModule {} M).2.typeCastsEliminated ∧
    (runOptimizations mgr M).1.stats.numericOperationsOptimized =
      ps.numericOptimizations + (runTypeDirectedOnModule {} M).2.numericOptimizations ∧
    (runOptimizations mgr M).1.stats.multiplicationsToShifts =
      ps.multiplicationToShifts + (runTypeDirectedOnModule {} M).2.multiplicationToShifts ∧
    (runOptimizations mgr M).1.stats.divisionsToShifts =
      ps.divisionToShifts + (runTypeDirectedOnModule {} M).2.divisionToShifts ∧
    (runOptimizations mgr M).1.stats.typeSpecializations =
      ps.specializationsApplied + (runTypeDirectedOnModule {} M).2.specializationsApplied := by
  rcases hm : runTypeDirectedOnModule ({} : TypeOptimizationStats) M with ⟨M1, dm⟩
  have hadd := runTypeDirectedOnModule_add M ps
  rw [hm] at hadd
  simp only [runOptimizations, h, hadd, hm]
  simp [TypeOptimizationStats.add]

/-- C7 witness: the amended theorem applied to a fresh O3 manager and the
one-cast module. -/
theorem C7_snapshot_accumulation_witness :
    freshO3Manager.typeDirectedPass = some {} ∧
    (runOptimizations freshO3Manager sameCastModule).1.stats.typeCastsEliminated =
      TypeOptimizationStats.typeCastsEliminated {} +
        (runTypeDirectedOnModule {} sameCastModule).2.typeCastsEliminated :=
  ⟨rfl,
   (C7_snapshot_accumulation freshO3Manager sameCastModule {} rfl).2.2.2.2.1⟩

end Quill

namespace Quill

/-! ## Solver termination (C8) -/

/-- Scope lookup at a matching head. -/
theorem scopeLookup_cons_pos {p : String × Ty} {l : Scope} {k : String}
    (h : (p.1 == k) = true) : scopeLookup (p :: l) k = some p.2 := by
  rw [scopeLookup, @List.find?_cons_of_pos _ (fun q => q.1 == k) p l h]
  rfl

/-- Scope lookup skipping a non-matching head. -/
theorem scopeLookup_cons_neg {p : String × Ty} {l : Scope} {k : String}
    (h : (p.1 == k) = false) : scopeLookup (p :: l) k = scopeLookup l k := by
  rw [scopeLookup, @List.find?_cons_of_neg _ (fun q => q.1 == k) p l
    (by simp only [h]; exact Bool.false_ne_true)]
  rfl

/-- An absent binding means no entry carries the key. -/
theorem getBinding_none_iff {b : Bindings} {k : String} :
    getBinding b k = none ↔ ∀ p ∈ b, (p.1 == k) = false := by
  rw [getBinding, scopeLookup]
  constructor
  · intro h p hp
    cases hfind : b.find? (fun q => q.1 == k) with
    | some q => rw [hfind] at h; cases h
    | none =>
        rcases Bool.eq_false_or_eq_true (p.1 == k) with h2 | h2
        · exact absurd hfind (by
            intro hn
            have := List.find?_eq_none.mp hn p hp
            rw [h2] at this
            exact this rfl)
        · exact h2
  · intro h
    rw [List.find?_eq_none.mpr (fun p hp => by rw [h p hp]; exact Bool.false_ne_true)]
    rfl

/-- Bindings are never lost: an existing binding survives any extension. -/
theorem getBinding_append_left {b : Bindings} {k : String} {v : Ty}
    (h : getBinding b k = some v) (ext : Bindings) :
    getBinding (b ++ ext) k = some v := by
  induction b with
  | nil => cases h
  | cons p ps ih =>
      rcases Bool.eq_false_or_eq_true (p.1 == k) with h2 | h2
      · rw [getBinding, scopeLookup_cons_pos h2] at h
        rw [getBinding, List.cons_append, scopeLookup_cons_pos h2]
        exact h
      · rw [getBinding, List.cons_append, scopeLookup_cons_neg h2]
        rw [getBinding, scopeLookup_cons_neg h2] at h
        exact ih h

/-- Absence over an extension implies absence over the prefix. -/
theorem getBinding_none_of_append {b ext : Bindings} {k : String}
    (h : getBinding (b ++ ext) k = none) : getBinding b k = none := by
  cases hb : getBinding b k with
  | none => rfl
  | some v => rw [getBinding_append_left hb ext] at h; cases h

/-- A freshly appended binding is found. -/
theorem getBinding_append_self {b : Bindings} {k : String} (t : Ty)
    (h : getBinding b k = none) : getBinding (b ++ [(k, t)]) k = some t := by
  induction b with
  | nil => exact scopeLookup_cons_pos (beq_self_eq_true k)
  | cons p ps ih =>
      have hp : (p.1 == k) = false := getBinding_none_iff.mp h p (List.mem_cons_self p ps)
      rw [getBinding, List.cons_append, scopeLookup_cons_neg hp]
      refine ih (getBinding_none_iff.mpr ?_)
      intro q hq
      exact getBinding_none_iff.mp h q (List.mem_cons_of_mem p hq)

/-- Inserting an absent key appends it. -/
theorem scopeInsert_of_none {b : Bindings} {k : String} (t : Ty)
    (h : getBinding b k = none) : scopeInsert b k t = b ++ [(k, t)] := by
  rw [scopeInsert, if_neg]
  intro hany
  rcases List.any_eq_true.mp hany with ⟨p, hp, hpk⟩
  rw [getBinding_none_iff.mp h p hp] at hpk
  cases hpk

/-- Absence of a binding is absence of its key. -/
theorem getBinding_none_iff_not_mem {b : Bindings} {k : String} :
    getBinding b k = none ↔ k ∉ b.map Prod.fst := by
  rw [getBinding_none_iff]
  constructor
  · intro h hk
    rcases List.mem_map.mp hk with ⟨p, hp, hpk⟩
    have := h p hp
    rw [hpk, beq_self_eq_true] at this
    cases this
  · intro h p hp
    rcases Bool.eq_false_or_eq_true (p.1 == k) with h2 | h2
    · exact absurd (List.mem_map.mpr ⟨p, hp, beq_iff_eq.mp h2⟩) h
    · exact h2

/-- One solver-loop constraint either leaves the bindings unchanged or
appends exactly one fresh binding whose key is a (top-level) generic
parameter name of the constraint. -/
theorem solveStep_shape (b : Bindings) (c : Constraint) :
    solveStep b c = b ∨
      ∃ n t, n ∈ constraintGenericNames c ∧ getBinding b n = none ∧
        solveStep b c = b ++ [(n, t)] := by
  rcases c with ⟨kind, left, right⟩
  unfold solveStep
  dsimp only
  split
  · split
    · rename_i n cs r
      by_cases hr : (r.kind == TypeKind.GENERIC) = true
      · rw [if_pos hr]
        exact Or.inl rfl
      · rw [if_neg hr]
        cases hb : getBinding b n with
        | some v => exact Or.inl (if_pos rfl)
        | none =>
            rw [if_neg (show ¬((none : Option Ty).isSome = true) by simp)]
            right
            exact ⟨n, r, by simp [constraintGenericNames], hb,
              by rw [bindTypeVariable, scopeInsert_of_none r hb]⟩
    · rename_i n cs hdisc
      cases hb : getBinding b n with
      | some v => exact Or.inl (if_pos rfl)
      | none =>
          rw [if_neg (show ¬((none : Option Ty).isSome = true) by simp)]
          right
          exact ⟨n, left, by simp [constraintGenericNames], hb,
            by rw [bindTypeVariable, scopeInsert_of_none left hb]⟩
    · exact Or.inl rfl
  · split
    · rename_i n cs
      cases hb : getBinding b n with
      | some v => exact Or.inl (if_pos rfl)
      | none =>
          rw [if_neg (show ¬((none : Option Ty).isSome = true) by simp)]
          right
          exact ⟨n, Ty.int, by simp [constraintGenericNames], hb,
            by rw [bindTypeVariable, scopeInsert_of_none Ty.int hb]⟩
    · exact Or.inl rfl
  · split
    · rename_i n cs
      cases hb : getBinding b n with
      | some v => exact Or.inl (if_pos rfl)
      | none =>
          rw [if_neg (show ¬((none : Option Ty).isSome = true) by simp)]
          right
          exact ⟨n, Ty.int, by simp [constraintGenericNames], hb,
            by rw [bindTypeVariable, scopeInsert_of_none Ty.int hb]⟩
    · exact Or.inl rfl
  · exact Or.inl rfl

end Quill

namespace Quill

/-- Generic names of a constraint list decompose headwise. -/
theorem genericNames_cons (c : Constraint) (cs : List Constraint) :
    genericNames (c :: cs) = constraintGenericNames c ++ genericNames cs := by
  simp [genericNames]

/-- One full sweep appends a (possibly empty) block of fresh bindings:
every appended key is a generic parameter name of some constraint, was
unbound before the sweep, and no key is appended twice. -/
theorem solveSweep_shape (cs : List Constraint) :
    ∀ b : Bindings, ∃ ext : Bindings,
      solveSweep cs b = b ++ ext ∧
      (∀ p ∈ ext, p.1 ∈ genericNames cs) ∧
      (∀ p ∈ ext, getBinding b p.1 = none) ∧
      (ext.map Prod.fst).Nodup := by
  induction cs with
  | nil =>
      intro b
      exact ⟨[], by simp [solveSweep], by simp, by simp, by simp⟩
  | cons c cs ih =>
      intro b
      have hfold : solveSweep (c :: cs) b = solveSweep cs (solveStep b c) := rfl
      rcases solveStep_shape b c with h | ⟨n, t, hn, hnone, h⟩
      · rcases ih (solveStep b c) with ⟨ext, h1, h2, h3, h4⟩
        rw [h] at h1 h3
        refine ⟨ext, by rw [hfold, h, h1], ?_, h3, h4⟩
        intro p hp
        rw [genericNames_cons]
        exact List.mem_append_right _ (h2 p hp)
      · rcases ih (solveStep b c) with ⟨ext, h1, h2, h3, h4⟩
        rw [h] at h1 h3
        refine ⟨(n, t) :: ext, ?_, ?_, ?_, ?_⟩
        · rw [hfold, h, h1, List.append_assoc]
          rfl
        · intro p hp
          rw [genericNames_cons]
          rcases List.mem_cons.mp hp with h5 | h5
          · subst h5
            exact List.mem_append_left _ hn
          · exact List.mem_append_right _ (h2 p h5)
        · intro p hp
          rcases List.mem_cons.mp hp with h5 | h5
          · subst h5
            exact hnone
          · exact getBinding_none_of_append (h3 p h5)
        · rw [List.map_cons, List.nodup_cons]
          refine ⟨?_, h4⟩
          intro hmem
          rcases List.mem_map.mp hmem with ⟨p, hp, hpk⟩
          have h5 := h3 p hp
          rw [hpk] at h5
          rw [getBinding_append_self t hnone] at h5
          cases h5

/-- A changing sweep strictly shrinks the set of still-unbound generic
parameter names. -/
theorem sweep_measure_decreases (cs : List Constraint) {b : Bindings}
    (h : solveSweep cs b ≠ b) :
    ((genericNames cs).toFinset \ ((solveSweep cs b).map Prod.fst).toFinset).card <
      ((genericNames cs).toFinset \ (b.map Prod.fst).toFinset).card := by
  rcases solveSweep_shape cs b with ⟨ext, h1, h2, h3, _⟩
  rcases ext with _ | ⟨⟨n, t⟩, ext2⟩
  · exact absurd (by rw [h1, List.append_nil]) h
  · have hn : n ∈ genericNames cs := h2 (n, t) (List.mem_cons_self _ _)
    have hnb : n ∉ b.map Prod.fst :=
      getBinding_none_iff_not_mem.mp (h3 (n, t) (List.mem_cons_self _ _))
    have hns : n ∈ (solveSweep cs b).map Prod.fst := by
      rw [h1, List.map_append]
      exact List.mem_append_right _ (by simp)
    apply Finset.card_lt_card
    rw [Finset.ssubset_iff_of_subset]
    · exact ⟨n, by simp [hn, hnb], by simp [hns]⟩
    · intro x hx
      rcases Finset.mem_sdiff.mp hx with ⟨hx1, hx2⟩
      refine Finset.mem_sdiff.mpr ⟨hx1, ?_⟩
      intro hx3
      refine hx2 ?_
      rw [h1, List.map_append]
      rw [List.mem_toFinset] at hx3 ⊢
      exact List.mem_append_left _ hx3

/-- Fuel exceeding the number of still-unbound generic names drives the
solver's while-loop to a fixed point of the sweep. -/
theorem solveLoop_reaches_fixpoint (cs : List Constraint) :
    ∀ (fuel : ℕ) (b : Bindings),
      ((genericNames cs).toFinset \ (b.map Prod.fst).toFinset).card < fuel →
      solveSweep cs (solveLoop cs fuel b) = solveLoop cs fuel b := by
  intro fuel
  induction fuel with
  | zero =>
      intro b h
      exact absurd h (Nat.not_lt_zero _)
  | succ fuel ih =>
      intro b h
      rw [solveLoop]
      by_cases heq : (solveSweep cs b).length = b.length
      · rw [if_pos heq]
        rcases solveSweep_shape cs b with ⟨ext, h1, _, _, _⟩
        have hlen := congrArg List.length h1
        rw [heq, List.length_append] at hlen
        have hext : ext = [] := List.length_eq_zero.mp (by omega)
        rw [h1, hext, List.append_nil]
      · rw [if_neg heq]
        apply ih
        have hne : solveSweep cs b ≠ b := fun hc => heq (by rw [hc])
        have := sweep_measure_decreases cs hne
        omega

end Quill

namespace Quill

/-- C8: the constraint solver terminates.  Each sweep of the fixed-point
loop either adds at least one new binding or leaves the bindings
unchanged (the loop's exit condition); existing bindings are never lost
or changed (monotone growth); every binding key is either pre-existing or
one of the generic parameter names appearing in the constraints, so the
growth is bounded by the number of distinct such names; and the loop,
run with fuel one more than that number (`solveConstraints`), reaches a
fixed point of the sweep — the C++ `while (changed)` loop halts. -/
theorem C8_solver_terminates (cs : List Constraint) (b : Bindings) :
    (∀ k v, getBinding b k = some v → getBinding (solveSweep cs b) k = some v) ∧
    (solveSweep cs b = b ∨ b.length < (solveSweep cs b).length) ∧
    (∀ p ∈ solveSweep cs b, p.1 ∈ b.map Prod.fst ∨ p.1 ∈ genericNames cs) ∧
    (solveSweep cs b).length ≤ b.length + (genericNames cs).dedup.length ∧
    solveSweep cs (solveConstraints cs b) = solveConstraints cs b := by
  rcases solveSweep_shape cs b with ⟨ext, h1, h2, h3, h4⟩
  refine ⟨?_, ?_, ?_, ?_, ?_⟩
  · intro k v hk
    rw [h1]
    exact getBinding_append_left hk ext
  · rcases ext with _ | ⟨p, ext2⟩
    · left
      rw [h1, List.append_nil]
    · right
      rw [h1, List.length_append, List.length_cons]
      omega
  · intro p hp
    rw [h1] at hp
    rcases List.mem_append.mp hp with h5 | h5
    · exact Or.inl (List.mem_map_of_mem Prod.fst h5)
    · exact Or.inr (h2 p h5)
  · rw [h1, List.length_append]
    have hlen : ext.length = (ext.map Prod.fst).length := (List.length_map _ _).symm
    have hcard : (ext.map Prod.fst).toFinset.card = (ext.map Prod.fst).length :=
      List.toFinset_card_of_nodup h4
    have hsub : (ext.map Prod.fst).toFinset ⊆ (genericNames cs).toFinset := by
      intro x hx
      rw [List.mem_toFinset] at hx ⊢
      rcases List.mem_map.mp hx with ⟨p, hp, hpk⟩
      exact hpk ▸ h2 p hp
    have hle := Finset.card_le_card hsub
    rw [hcard, List.card_toFinset] at hle
    omega
  · rw [solveConstraints]
    apply solveLoop_reaches_fixpoint
    have hsub : ((genericNames cs).toFinset \ (b.map Prod.fst).toFinset).card ≤
        (genericNames cs).toFinset.card :=
      Finset.card_le_card (Finset.sdiff_subset)
    rw [List.card_toFinset] at hsub
    omega

end Quill

namespace Quill

/-- The checker state at the start of a body check: global scope, fresh
inference context (as after `beginInference`). -/
def quillInitialState : CheckerState :=
  { typeEnv := TypeEnvironment.init, currentContext := some InferenceContext.empty }

/-- The program `if 1: x = 1 else: x = 2.5` with `x` previously
undeclared and a valid (numeric) condition. -/
def ifMergeProgram : Stmt :=
  Stmt.ifS (Expr.num 1)
    (Stmt.assign "x" (Expr.num 1))
    (some (Stmt.assign "x" (Expr.num (5/2))))

/-- C1: checking `if 1: x = 1 else: x = 2.5` from a fresh context.
`checkIf` clones `then_context`/`else_context` but never installs them:
both branches are checked against the live shared `current_context`, so
the then branch's `x : int` is visible to the else branch, whose
`x = 2.5` then fails assignability (`int` does not accept `float`) with
"Type error in assignment to variable 'x': expected int, got float"; the
merge of the two clones leaves `x : int`, not the claimed `float`.  The
claim describes the evident intent (independent snapshots, no error,
`x : float` after the int/float promotion on merge); the code checks the
branches against the shared context instead. -/
theorem C1_branches_share_context :
    (checkStatement quillInitialState ifMergeProgram).2.errors =
      [formatTypeError "assignment to variable 'x'" (some Ty.int) (some Ty.float)] ∧
    formatTypeError "assignment to variable 'x'" (some Ty.int) (some Ty.float) =
      "Type error in assignment to variable 'x': expected int, got float" ∧
    ((checkStatement quillInitialState ifMergeProgram).1.currentContext.getD
        InferenceContext.empty).getVariableType "x" = some Ty.int := by
  have ht : ratTrunc (1 : ℚ) = 1 := by
    rw [ratTrunc_eq_num_of_den_one (by simp)]
    simp
  have h1 : inferNumberType 1 = { type := some Ty.int } := by
    rw [inferNumberType, if_pos]
    exact ⟨by rw [ht]; norm_num, by rw [ht]; norm_num,
      (ratTrunc_roundTrip_iff 1).mpr (by simp)⟩
  have h2 : inferNumberType (5/2) = { type := some Ty.float } := by
    rw [inferNumberType, if_neg]
    rintro ⟨-, -, hcontra⟩
    have hden := (ratTrunc_roundTrip_iff (5/2)).mp hcontra
    norm_num at hden
  refine ⟨?_, by simp [formatTypeError, Ty.toStr, Ty.tyName], ?_⟩ <;>
    simp +decide [checkStatement, checkIf, checkAssignment, inferExpressionType, h1, h2,
      lookupVariable, InferenceContext.getVariableType, InferenceContext.setVariableType,
      InferenceContext.markVariableModified, InferenceContext.merge, InferenceContext.empty,
      TypeEnvironment.init, TypeEnvironment.define, TypeEnvironment.lookup, scopesLookup,
      scopeLookup, scopeInsert, isAssignable, Ty.assignable, Ty.equals, Ty.kind,
      optIsBool, optIsNumeric, TypeCheckResult.hasErrors, Ty.isNumeric, Ty.isVoid,
      Ty.isError, unifyTypes, promoteNumericTypes, quillInitialState, ifMergeProgram]

end Quill
